import Mathlib

/-!
Verification of the fast-archiver core (package `falib`): the block wire
format, the CRC64-ECMA checkpoint discipline, the archive writer, and the
extraction loop, shallowly embedded over byte lists (`List Nat`, each
element a byte value).

Sources embedded here: `falib/block.go`, `falib/create-archive.go`,
`falib/unarchiver.go`, `falib/errors.go`.
-/

namespace FastArchiver

/-! ## Bytes and big-endian integers (`encoding/binary`, big-endian) -/

/-- Big-endian encoding of a `uint16` value (Go `binary.Write` of a `uint16`;
a wider value is truncated to 16 bits first, as Go's `uint16(...)` cast does). -/
def u16be (n : Nat) : List Nat := [n / 256 % 256, n % 256]

/-- Big-endian encoding of a `uint32` value. -/
def u32be (n : Nat) : List Nat :=
  [n / 16777216 % 256, n / 65536 % 256, n / 256 % 256, n % 256]

/-- Big-endian encoding of a `uint64` value. -/
def u64be (n : Nat) : List Nat :=
  [n / 72057594037927936 % 256, n / 281474976710656 % 256,
   n / 1099511627776 % 256, n / 4294967296 % 256,
   n / 16777216 % 256, n / 65536 % 256, n / 256 % 256, n % 256]

/-- Big-endian value of a byte list (how `binary.Read` assembles the bytes
it has read). -/
def beVal (bs : List Nat) : Nat := bs.foldl (fun acc b => acc * 256 + b) 0

/-- Reading `k` bytes from a stream (`io.ReadFull`): succeeds iff at least
`k` bytes remain, consuming exactly `k`. -/
def readBytes (k : Nat) (input : List Nat) : Option (List Nat × List Nat) :=
  if k ≤ input.length then some (input.take k, input.drop k) else none

/-! ## CRC64, ECMA polynomial (`hash/crc64` with `crc64.ECMA`)

Go's `hash/crc64` is the table-driven form of the reflected (LSB-first)
CRC64: the digest starts at 0, each `Write` complements the state, folds
the bytes in with `tab[byte(crc)^v] ^ (crc >> 8)`, and complements again;
`Sum64` returns the state.  The table step equals eight rounds of
"shift right, and XOR the polynomial when the bit shifted out was 1"
applied after XOR-ing the byte into the low bits, which is the form
embedded here. -/

/-- The ECMA-182 polynomial in reflected representation (`crc64.ECMA`). -/
def crc64ECMA : Nat := 0xC96C5795D7870F42

/-- All sixty-four bits set; `^x` on a Go `uint64` is `Nat.xor x mask64`. -/
def mask64 : Nat := 0xFFFFFFFFFFFFFFFF

/-- One bit round of the reflected CRC64. -/
def crc64round (crc : Nat) : Nat :=
  if crc % 2 = 1 then Nat.xor (crc / 2) crc64ECMA else crc / 2

/-- Fold one byte into the CRC64 state: XOR it in, then eight bit rounds. -/
def crc64byte (crc b : Nat) : Nat :=
  crc64round (crc64round (crc64round (crc64round
    (crc64round (crc64round (crc64round (crc64round (Nat.xor crc b))))))))

/-- Go `digest.Write`: complement, fold every byte, complement again. -/
def crc64update (crc : Nat) (p : List Nat) : Nat :=
  Nat.xor (p.foldl crc64byte (Nat.xor crc mask64)) mask64

/-- The CRC64 of a whole byte sequence: a fresh digest (state 0) after
writing `p`; this is what `Sum64` returns at that point. -/
def crc64 (p : List Nat) : Nat := crc64update 0 p

theorem xor_mask64_twice (x : Nat) : Nat.xor (Nat.xor x mask64) mask64 = x := by
  show x ^^^ mask64 ^^^ mask64 = x
  rw [Nat.xor_assoc, Nat.xor_self, Nat.xor_zero]

theorem crc64update_append (c : Nat) (a b : List Nat) :
    crc64update c (a ++ b) = crc64update (crc64update c a) b := by
  simp [crc64update, List.foldl_append, xor_mask64_twice]

/-! ## Blocks (`falib/block.go`) -/

/-- Block type tags, `blockTypeData = 0` through `blockTypeChecksum = 4`
(the Go `iota` enumeration). -/
inductive BlockType where
  | data
  | startOfFile
  | endOfFile
  | directory
  | checksum
deriving DecidableEq, Repr

/-- The wire tag byte of a block type. -/
def BlockType.tag : BlockType → Nat
  | .data => 0
  | .startOfFile => 1
  | .endOfFile => 2
  | .directory => 3
  | .checksum => 4

/-- The `block` record (`falib/block.go`): `filePath` is the UTF-8 path as
bytes, `buffer` the data buffer of which the first `numBytes` bytes are
valid, and `uid`/`gid`/`mode` the ownership triple (Go `int`, `int`,
`os.FileMode`). -/
structure Block where
  filePath : List Nat
  numBytes : Nat
  buffer : List Nat
  blockType : BlockType
  uid : Nat
  gid : Nat
  mode : Nat
deriving DecidableEq, Repr

/-- The 8-byte archive header (`fastArchiverHeader`). -/
def fastArchiverHeader : List Nat := [0x89, 0x46, 0x41, 0x31, 0x0D, 0x0A, 0x1A, 0x0A]

/-- `block.writeBlock`: length-prefixed path, tag byte, then the
kind-specific tail.  Returns `none` where the Go code aborts: the
`default` switch arm panics on a `checksum` block (those frames are
produced by `writeChecksumBlock` instead), and the slice expression
`b.buffer[:b.numBytes]` panics when `numBytes` exceeds the buffer length. -/
def Block.writeBlock (b : Block) : Option (List Nat) :=
  match b.blockType with
  | .directory | .startOfFile =>
      some (u16be b.filePath.length ++ b.filePath ++ [b.blockType.tag] ++
        u32be b.uid ++ u32be b.gid ++ u32be b.mode)
  | .endOfFile =>
      some (u16be b.filePath.length ++ b.filePath ++ [b.blockType.tag])
  | .data =>
      if b.numBytes ≤ b.buffer.length then
        some (u16be b.filePath.length ++ b.filePath ++ [b.blockType.tag] ++
          u16be b.numBytes ++ b.buffer.take b.numBytes)
      else none
  | .checksum => none

/-- `writeChecksumBlock` emits a zero path length, the checksum tag, and the
64-bit digest value; `sum` is `hash.Sum64()` at the moment of the call,
which is evaluated after the three framing bytes have reached the hasher. -/
def checksumBlockBytes (sum : Nat) : List Nat :=
  u16be 0 ++ [BlockType.checksum.tag] ++ u64be sum

/-! ## The archive writer (`ArchiveWriter` / `Archiver.archiveWriter`)

The writer tees its output into the CRC64 digest (`io.MultiWriter`), so
every emitted byte, the checksum values included, is hashed.  The model
threads the digest state exactly as the Go code does.  A `none` result
models the panic inside `writeBlock` for a malformed queue block; the
real producers never enqueue such blocks. -/

/-- One checksum block emission given the current digest state: the two
length bytes and the tag byte reach the hasher first, then `Sum64()` is
read, then the eight value bytes are written (and hashed in turn).
Returns the emitted bytes and the new digest state. -/
def emitChecksum (crcSt : Nat) : List Nat × Nat :=
  let st1 := crc64update crcSt (u16be 0 ++ [BlockType.checksum.tag])
  let bytes := checksumBlockBytes st1
  (bytes, crc64update st1 (u64be st1))

/-- The writer loop over the drained block queue: write each block frame,
bump the block counter, and interleave a checksum block after every
1000th queue block; after the queue is drained, write one final checksum
block. -/
def archiveWriterLoop : List Block → Nat → Nat → Option (List Nat)
  | [], _, crcSt => some (emitChecksum crcSt).1
  | b :: rest, blockCount, crcSt =>
      match b.writeBlock with
      | none => none
      | some frame =>
          let crcSt1 := crc64update crcSt frame
          let blockCount1 := blockCount + 1
          if blockCount1 % 1000 = 0 then
            let ec := emitChecksum crcSt1
            (archiveWriterLoop rest blockCount1 ec.2).map (fun out => frame ++ ec.1 ++ out)
          else
            (archiveWriterLoop rest blockCount1 crcSt1).map (fun out => frame ++ out)

/-- `ArchiveWriter`: the 8-byte header followed by the writer loop over the
queued blocks, starting from a fresh digest that has absorbed the header. -/
def archiveWriter (blocks : List Block) : Option (List Nat) :=
  (archiveWriterLoop blocks 0 (crc64update 0 fastArchiverHeader)).map
    (fun out => fastArchiverHeader ++ out)

/-! ## The extraction side (`falib/unarchiver.go`)

`Unarchiver.Run` wraps its input in a `hashingReader` that feeds every
successfully read byte into a CRC64 digest, checks the 8-byte header, and
then loops: read a `uint16` path size (clean EOF here ends the loop), the
path, the tag byte, and the kind-specific fields, dispatching as it goes.
The model is sequential: the per-path goroutine spawned for each
`StartOfFile` is folded into the state transition of the block that feeds
its channel, which preserves the observable filesystem outcome because
every send happens-before the corresponding write. -/

/-- Errors of the extraction run (`falib/errors.go`, plus the outcomes that
the Go code reaches through the runtime rather than an `error` value). -/
inductive UErr where
  /-- An `io` read failed inside a frame (`io.ReadFull` / `binary.Read`
  returned an error other than a clean EOF before a frame): `Run` returns
  that error. -/
  | truncatedStream
  /-- `ErrFileHeaderMismatch`. -/
  | fileHeaderMismatch
  /-- `ErrAbsoluteDirectoryPath`. -/
  | absoluteDirectoryPath
  /-- `ErrCrcMismatch`. -/
  | crcMismatch
  /-- `ErrUnrecognizedBlockType`. -/
  | unrecognizedBlockType
  /-- A `Data` or `EndOfFile` block for a path missing from
  `fileOutputChan`: the Go map yields a nil channel and the send blocks
  forever; every goroutine of the process then sleeps, so the Go runtime
  aborts with a fatal deadlock error.  Extraction never completes. -/
  | nilChannelSend
  /-- `workInProgress.Wait()` blocks forever because some per-file channel
  was never closed (an unterminated or replaced `StartOfFile`). -/
  | stuckWaitGroup
  /-- `os.Mkdir` failed with an error other than `EEXIST` (in the model:
  the parent directory does not exist); `Run` returns that error. -/
  | hostMkdirError
deriving DecidableEq, Repr

/-- A decoded frame, as the reader's loop sees it.  For a checksum frame
the reader ignores the path it just read, so only the value is kept. -/
inductive Frame where
  | data (path : List Nat) (payload : List Nat)
  | startOfFile (path : List Nat) (uid gid mode : Nat)
  | endOfFile (path : List Nat)
  | directory (path : List Nat) (uid gid mode : Nat)
  | checksum (value : Nat)
deriving DecidableEq, Repr

/-- Result of one iteration of the reader loop: the decoded frame, the
bytes consumed (all of which went through the hashing reader), the prefix
of those bytes already hashed at the moment a checksum comparison is
evaluated (`cut = consumed` for every other frame), and the remaining
stream. -/
structure StepOut where
  frame : Frame
  consumed : List Nat
  cut : List Nat
  rest : List Nat
deriving DecidableEq, Repr

/-- One iteration of the `Unarchiver.Run` read loop, up to (but not
including) the dispatch on the decoded block.  Field order and error
behaviour follow the source: path size, path bytes, absolute-path check,
tag byte, then the kind-specific fields; a clean EOF before the path size
ends the loop (`none`).  For a checksum frame the 8 value bytes are read
with the error ignored (the source discards `binary.Read`'s result
there), so a short read leaves the Go zero value `0`. -/
def parseStep (input : List Nat) : Except UErr (Option StepOut) :=
  match input with
  | [] => .ok none
  | _ :: _ =>
    match readBytes 2 input with
    | none => .error .truncatedStream
    | some (szb, r1) =>
      match readBytes (beVal szb) r1 with
      | none => .error .truncatedStream
      | some (path, r2) =>
        if path.head? = some 47 then .error .absoluteDirectoryPath
        else
          match readBytes 1 r2 with
          | none => .error .truncatedStream
          | some (tagb, r3) =>
            if beVal tagb = 1 then
              match readBytes 4 r3 with
              | none => .error .truncatedStream
              | some (uidb, r4) =>
                match readBytes 4 r4 with
                | none => .error .truncatedStream
                | some (gidb, r5) =>
                  match readBytes 4 r5 with
                  | none => .error .truncatedStream
                  | some (modeb, r6) =>
                    .ok (some ⟨.startOfFile path (beVal uidb) (beVal gidb) (beVal modeb),
                      szb ++ path ++ tagb ++ uidb ++ gidb ++ modeb,
                      szb ++ path ++ tagb ++ uidb ++ gidb ++ modeb, r6⟩)
            else if beVal tagb = 2 then
              .ok (some ⟨.endOfFile path, szb ++ path ++ tagb, szb ++ path ++ tagb, r3⟩)
            else if beVal tagb = 0 then
              match readBytes 2 r3 with
              | none => .error .truncatedStream
              | some (szb2, r4) =>
                match readBytes (beVal szb2) r4 with
                | none => .error .truncatedStream
                | some (payload, r5) =>
                  .ok (some ⟨.data path payload,
                    szb ++ path ++ tagb ++ szb2 ++ payload,
                    szb ++ path ++ tagb ++ szb2 ++ payload, r5⟩)
            else if beVal tagb = 3 then
              match readBytes 4 r3 with
              | none => .error .truncatedStream
              | some (uidb, r4) =>
                match readBytes 4 r4 with
                | none => .error .truncatedStream
                | some (gidb, r5) =>
                  match readBytes 4 r5 with
                  | none => .error .truncatedStream
                  | some (modeb, r6) =>
                    .ok (some ⟨.directory path (beVal uidb) (beVal gidb) (beVal modeb),
                      szb ++ path ++ tagb ++ uidb ++ gidb ++ modeb,
                      szb ++ path ++ tagb ++ uidb ++ gidb ++ modeb, r6⟩)
            else if beVal tagb = 4 then
              match readBytes 8 r3 with
              | some (valb, r4) =>
                .ok (some ⟨.checksum (beVal valb),
                  szb ++ path ++ tagb ++ valb, szb ++ path ++ tagb, r4⟩)
              | none =>
                .ok (some ⟨.checksum 0, szb ++ path ++ tagb ++ r3, szb ++ path ++ tagb, []⟩)
            else .error .unrecognizedBlockType

theorem readBytes_append {k : Nat} {input bs rest : List Nat}
    (h : readBytes k input = some (bs, rest)) :
    bs ++ rest = input ∧ bs.length = k ∧ k ≤ input.length := by
  unfold readBytes at h
  split at h
  · cases h
    refine ⟨List.take_append_drop k input, ?_, ‹k ≤ input.length›⟩
    simp [List.length_take, Nat.min_eq_left ‹k ≤ input.length›]
  · cases h

/-- Every successfully decoded frame consumes a nonempty prefix of the
input, and the consumed bytes followed by the rest reproduce the input. -/
theorem parseStep_sound {input : List Nat} {s : StepOut}
    (h : parseStep input = .ok (some s)) :
    s.consumed ++ s.rest = input ∧ 0 < s.consumed.length := by
  unfold parseStep at h
  split at h
  · cases h
  · split at h
    · cases h
    case _ szb r1 hrb1 =>
      obtain ⟨he1, hl1, _⟩ := readBytes_append hrb1
      split at h
      · cases h
      case _ path r2 hrb2 =>
        obtain ⟨he2, hl2, _⟩ := readBytes_append hrb2
        split at h
        · cases h
        · split at h
          · cases h
          case _ tagb r3 hrb3 =>
            obtain ⟨he3, hl3, _⟩ := readBytes_append hrb3
            split at h
            · split at h
              · cases h
              case _ uidb r4 hrb4 =>
                obtain ⟨he4, hl4, _⟩ := readBytes_append hrb4
                split at h
                · cases h
                case _ gidb r5 hrb5 =>
                  obtain ⟨he5, hl5, _⟩ := readBytes_append hrb5
                  split at h
                  · cases h
                  case _ modeb r6 hrb6 =>
                    obtain ⟨he6, hl6, _⟩ := readBytes_append hrb6
                    cases h
                    constructor
                    · simp only [List.append_assoc]
                      rw [he6, he5, he4, he3, he2, he1]
                    · simp [hl1]
            · split at h
              · cases h
                constructor
                · simp only [List.append_assoc]
                  rw [he3, he2, he1]
                · simp [hl1]
              · split at h
                · split at h
                  · cases h
                  case _ szb2 r4 hrb4 =>
                    obtain ⟨he4, hl4, _⟩ := readBytes_append hrb4
                    split at h
                    · cases h
                    case _ payload r5 hrb5 =>
                      obtain ⟨he5, hl5, _⟩ := readBytes_append hrb5
                      cases h
                      constructor
                      · simp only [List.append_assoc]
                        rw [he5, he4, he3, he2, he1]
                      · simp [hl1]
                · split at h
                  · split at h
                    · cases h
                    case _ uidb r4 hrb4 =>
                      obtain ⟨he4, hl4, _⟩ := readBytes_append hrb4
                      split at h
                      · cases h
                      case _ gidb r5 hrb5 =>
                        obtain ⟨he5, hl5, _⟩ := readBytes_append hrb5
                        split at h
                        · cases h
                        case _ modeb r6 hrb6 =>
                          obtain ⟨he6, hl6, _⟩ := readBytes_append hrb6
                          cases h
                          constructor
                          · simp only [List.append_assoc]
                            rw [he6, he5, he4, he3, he2, he1]
                          · simp [hl1]
                  · split at h
                    · split at h
                      case _ valb r4 hrb4 =>
                        obtain ⟨he4, hl4, _⟩ := readBytes_append hrb4
                        cases h
                        constructor
                        · simp only [List.append_assoc]
                          rw [he4, he3, he2, he1]
                        · simp [hl1]
                      case _ =>
                        cases h
                        constructor
                        · simp only [List.append_assoc, List.append_nil]
                          rw [he3, he2, he1]
                        · simp [hl1]
                    · cases h

/-! ## Extraction state and dispatch

The model's filesystem is the set of directories and files the run has
materialized, starting from an empty working directory.  Syscalls are
assumed to behave as requested when their preconditions hold (the
environment runs with a zero umask and sufficient privilege for `chown`;
failures of `chown`/`chmod`/`write` are warnings in the source and are
not modelled as failing). -/

/-- The state of one spawned `writeFile` goroutine: whether `os.Create`
succeeded (when it did not, or under `DryRun`, the goroutine only drains
its channel), the ownership and mode applied at creation, and the bytes
written so far. -/
structure OpenFile where
  created : Bool
  owner : Option (Nat × Nat)
  modeSet : Option Nat
  content : List Nat
deriving DecidableEq, Repr

/-- A directory materialized by a `Directory` block: `os.Mkdir` plus the
optional `os.Chown`.  `owner = none` when `IgnoreOwners` suppressed the
chown. -/
structure DirRecord where
  path : List Nat
  owner : Option (Nat × Nat)
  mode : Nat
deriving DecidableEq, Repr

/-- A file fully written by a `writeFile` goroutine: `mode = none` when
`IgnorePerms` suppressed the chmod, `owner = none` when `IgnoreOwners`
suppressed the chown. -/
structure FileRecord where
  path : List Nat
  owner : Option (Nat × Nat)
  mode : Option Nat
  content : List Nat
deriving DecidableEq, Repr

/-- Extraction state: materialized directories and files, the
`fileOutputChan` map of still-open per-path channels, and whether some
channel binding was overwritten by a duplicate `StartOfFile` (its
goroutine would then never be released, so the final `Wait` would block). -/
structure ExtractState where
  dirs : List DirRecord
  files : List FileRecord
  openFiles : List (List Nat × OpenFile)
  leaked : Bool
deriving DecidableEq, Repr

def initialExtractState : ExtractState := ⟨[], [], [], false⟩

/-- The `Unarchiver` configuration (`falib/unarchiver.go`); the logger is
pure output and is not modelled. -/
structure Unarchiver where
  ignorePerms : Bool
  ignoreOwners : Bool
  dryRun : Bool
deriving DecidableEq, Repr

/-- The fallback mode `os.ModeDir | 0755` used when `IgnorePerms` is set. -/
def dirDefaultMode : Nat := 0x80000000 + 0o755

/-- Parent directory of a path: the bytes before the last `/` (byte 47);
`none` when the path has no separator, in which case the parent is the
working directory, which always exists. -/
def dirOf (p : List Nat) : Option (List Nat) :=
  match p.reverse.findIdx? (fun b => b == 47) with
  | none => none
  | some i => some (p.take (p.length - 1 - i))

/-- Whether the parent directory of `p` exists in the extraction state. -/
def parentOk (st : ExtractState) (p : List Nat) : Bool :=
  match dirOf p with
  | none => true
  | some d => st.dirs.any (fun r => r.path == d)

/-- Lookup in the `fileOutputChan` map. -/
def lookupOpen (st : ExtractState) (p : List Nat) : Option OpenFile :=
  (st.openFiles.find? (fun e => e.1 == p)).map (fun e => e.2)

/-- Dispatch of one decoded block, combining the `Run` branch for its tag
with the effect of the `writeFile` goroutine consuming the forwarded
block (checksum frames are handled in the loop itself, where the digest
is available). -/
def applyFrame (u : Unarchiver) (st : ExtractState) : Frame → Except UErr ExtractState
  | .startOfFile p uid gid mode =>
      let leaked := st.leaked || (lookupOpen st p).isSome
      let created := !u.dryRun && parentOk st p && !(st.dirs.any (fun r => r.path == p))
      let f : OpenFile :=
        { created := created
          owner := if created && !u.ignoreOwners then some (uid, gid) else none
          modeSet := if created && !u.ignorePerms then some mode else none
          content := [] }
      .ok { st with
        openFiles := (p, f) :: st.openFiles.filter (fun e => e.1 ≠ p)
        leaked := leaked }
  | .data p payload =>
      match lookupOpen st p with
      | none => .error .nilChannelSend
      | some f =>
          if f.created then
            .ok { st with openFiles :=
              (p, { f with content := f.content ++ payload }) ::
                st.openFiles.filter (fun e => e.1 ≠ p) }
          else .ok st
  | .endOfFile p =>
      match lookupOpen st p with
      | none => .error .nilChannelSend
      | some f =>
          let st1 := { st with openFiles := st.openFiles.filter (fun e => e.1 ≠ p) }
          if f.created then
            .ok { st1 with files := st1.files.filter (fun g => g.path ≠ p) ++
              [{ path := p, owner := f.owner, mode := f.modeSet, content := f.content }] }
          else .ok st1
  | .directory p uid gid mode =>
      let mode1 := if u.ignorePerms then dirDefaultMode else mode
      if u.dryRun then .ok st
      else if st.dirs.any (fun r => r.path == p) then
        if u.ignoreOwners then .ok st
        else .ok { st with dirs := st.dirs.map (fun r =>
          if r.path == p then { r with owner := some (uid, gid) } else r) }
      else if st.files.any (fun f => f.path == p) then
        if u.ignoreOwners then .ok st
        else .ok { st with files := st.files.map (fun f =>
          if f.path == p then { f with owner := some (uid, gid) } else f) }
      else if parentOk st p then
        let rec1 : DirRecord :=
          { path := p
            owner := if u.ignoreOwners then none else some (uid, gid)
            mode := mode1 }
        .ok { st with dirs := st.dirs ++ [rec1] }
      else .error .hostMkdirError
  | .checksum _ => .ok st

/-- The read loop of `Unarchiver.Run` after the header: parse one frame,
dispatch it, and recurse; `hashed` is the byte sequence already absorbed
by the hashing reader.  At a checksum frame the digest is read before
the stored value's bytes, so the comparison is against the CRC64 of
`hashed ++ s.cut`.  At a clean EOF the run waits for the spawned
goroutines: that wait returns only if every per-path channel has been
closed. -/
def blockLoop (u : Unarchiver) (hashed : List Nat) (input : List Nat) (st : ExtractState) :
    Except UErr ExtractState :=
  match h : parseStep input with
  | .error e => .error e
  | .ok none =>
      if st.openFiles.isEmpty && !st.leaked then .ok st else .error .stuckWaitGroup
  | .ok (some s) =>
      match s.frame with
      | .checksum v =>
          if crc64update 0 (hashed ++ s.cut) = v then
            blockLoop u (hashed ++ s.consumed) s.rest st
          else .error .crcMismatch
      | f =>
          match applyFrame u st f with
          | .error e => .error e
          | .ok st1 => blockLoop u (hashed ++ s.consumed) s.rest st1
termination_by input.length
decreasing_by
  all_goals
    obtain ⟨he, hl⟩ := parseStep_sound h
    have := congrArg List.length he
    simp only [List.length_append] at this
    omega

theorem blockLoop_parse_error {u : Unarchiver} {hashed input : List Nat} {st : ExtractState}
    {e : UErr} (h : parseStep input = .error e) :
    blockLoop u hashed input st = .error e := by
  rw [blockLoop]
  split <;> simp_all

theorem blockLoop_parse_none {u : Unarchiver} {hashed input : List Nat} {st : ExtractState}
    (h : parseStep input = .ok none) :
    blockLoop u hashed input st =
      if st.openFiles.isEmpty && !st.leaked then .ok st else .error .stuckWaitGroup := by
  rw [blockLoop]
  split <;> simp_all

theorem blockLoop_parse_checksum {u : Unarchiver} {hashed input : List Nat} {st : ExtractState}
    {v : Nat} {c k r : List Nat} (h : parseStep input = .ok (some ⟨.checksum v, c, k, r⟩)) :
    blockLoop u hashed input st =
      if crc64update 0 (hashed ++ k) = v then blockLoop u (hashed ++ c) r st
      else .error .crcMismatch := by
  rw [blockLoop]
  split <;> simp_all

theorem blockLoop_parse_frame {u : Unarchiver} {hashed input : List Nat} {st : ExtractState}
    {f : Frame} {c k r : List Nat} (h : parseStep input = .ok (some ⟨f, c, k, r⟩))
    (hf : ∀ v, f ≠ .checksum v) :
    blockLoop u hashed input st =
      match applyFrame u st f with
      | .error e => .error e
      | .ok st1 => blockLoop u (hashed ++ c) r st1 := by
  rw [blockLoop]
  split
  · simp_all
  · simp_all
  case _ s heq =>
    rw [h] at heq
    simp only [Except.ok.injEq, Option.some.injEq] at heq
    subst heq
    cases f with
    | checksum v => exact absurd rfl (hf v)
    | data p pay => rfl
    | startOfFile p a b c => rfl
    | endOfFile p => rfl
    | directory p a b c => rfl

/-- `Unarchiver.Run`: read the 8-byte header through the hashing reader,
reject on mismatch, then run the block loop on the remaining stream. -/
def runUnarchiver (u : Unarchiver) (input : List Nat) : Except UErr ExtractState :=
  if input.length < 8 then .error .truncatedStream
  else if input.take 8 ≠ fastArchiverHeader then .error .fileHeaderMismatch
  else blockLoop u (input.take 8) (input.drop 8) initialExtractState

/-! ## The create side (`DirectoryScanner` / `FileReader`, sequential model)

The concurrent pipeline is modelled by its canonical sequential schedule:
directories are scanned depth-first in entry order, and each file's
blocks are emitted contiguously.  Per-path block order — the only order
the extractor relies on — is the same in every schedule. -/

/-- The outcome of one `bufferedFile.Read` call in `FileReader`: a
non-empty chunk of at most `BlockSize` bytes, a clean end of file, or a
read error. -/
inductive ReadEvent where
  | chunk (bytes : List Nat)
  | eofEvent
  | readError
deriving DecidableEq, Repr

/-- What `FileReader` learns from an opened file: the `getModeOwnership`
triple and the successive read outcomes. -/
structure SourceFile where
  uid : Nat
  gid : Nat
  mode : Nat
  reads : List ReadEvent
deriving DecidableEq, Repr

/-- The inner read loop of `FileReader`: emit a `Data` block per chunk read;
a clean EOF or a read error breaks the loop (the error is only logged).
The block's buffer holds the chunk and `numBytes` counts its valid
bytes, exactly the bytes `writeBlock` will emit. -/
def fileReaderData (path : List Nat) : List ReadEvent → List Block
  | [] => []
  | .chunk c :: rest => ⟨path, c.length, c, .data, 0, 0, 0⟩ :: fileReaderData path rest
  | .eofEvent :: _ => []
  | .readError :: _ => []

/-- `FileReader` on one dequeued path: nothing at all when the open failed;
otherwise `StartOfFile` with the ownership triple, the data blocks, and
an unconditional `EndOfFile`. -/
def fileReaderBlocks (path : List Nat) : Option SourceFile → List Block
  | none => []
  | some f =>
      ⟨path, 0, [], .startOfFile, f.uid, f.gid, f.mode⟩ ::
        (fileReaderData path f.reads ++ [⟨path, 0, [], .endOfFile, 0, 0, 0⟩])

/-- The chunks a healthy file of the given content yields for a block size
`bs`: full `bs`-byte buffers, a final partial one, then a clean EOF.  The
source's read loop never terminates when `BlockSize` is zero (every read
returns zero bytes and no error); the unreachable `bs = 0` branch
returns `[]` and every theorem assumes `1 ≤ bs`. -/
def chunks (bs : Nat) (l : List Nat) : List (List Nat) :=
  if l = [] then []
  else if bs = 0 then []
  else l.take bs :: chunks bs (l.drop bs)
termination_by l.length
decreasing_by
  rename_i h0 hbs
  have h1 : 0 < l.length := List.length_pos.mpr h0
  simp only [List.length_drop]
  omega

/-- The read events of an intact file. -/
def healthyReads (bs : Nat) (content : List Nat) : List ReadEvent :=
  (chunks bs content).map ReadEvent.chunk ++ [ReadEvent.eofEvent]

/-- The blocks `FileReader` emits for an intact file. -/
def fileBlocks (path : List Nat) (uid gid mode bs : Nat) (content : List Nat) : List Block :=
  fileReaderBlocks path (some ⟨uid, gid, mode, healthyReads bs content⟩)

mutual
/-- A filesystem subtree: a regular file with its stat data and content, or
a directory with its stat data and named entries (symlinks and special
files are skipped by the scanner and need no representation). -/
inductive FsNode where
  | file (uid gid mode : Nat) (content : List Nat)
  | dir (uid gid mode : Nat) (entries : FsEntries)
/-- The named entries of a directory, in readdir order. -/
inductive FsEntries where
  | nil
  | cons (name : List Nat) (node : FsNode) (rest : FsEntries)
end

/-- Errors of the create run. -/
inductive CreateErr where
  /-- `ErrAbsoluteDirectoryPath` (`Logger.Fatalln` in the distilled source). -/
  | absoluteDirectoryPath
  /-- The writer's panic on an unexpected block type; unreachable from the
  scanner's output. -/
  | writerPanic
deriving DecidableEq, Repr

mutual
/-- `directoryScanner` on one dequeued directory path: reject absolute
paths, emit the `Directory` block with the stat triple, then walk the
entries in order (`filepath.Join` of a clean relative directory and a
slash-free name is their concatenation around one `/`). -/
def scanDir (bs : Nat) (path : List Nat) (uid gid mode : Nat) (entries : FsEntries) :
    Except CreateErr (List Block) :=
  if path.head? = some 47 then .error .absoluteDirectoryPath
  else
    match scanEntries bs path entries with
    | .error e => .error e
    | .ok blocks => .ok (⟨path, 0, [], .directory, uid, gid, mode⟩ :: blocks)
termination_by (sizeOf entries, 1)

/-- The entry walk: each regular file contributes its `FileReader` blocks,
each directory is scanned recursively. -/
def scanEntries (bs : Nat) (path : List Nat) (entries : FsEntries) :
    Except CreateErr (List Block) :=
  match entries with
  | .nil => .ok []
  | .cons name node rest =>
      let childPath := path ++ 47 :: name
      match (match node with
             | .file fuid fgid fmode content =>
                 .ok (fileBlocks childPath fuid fgid fmode bs content)
             | .dir duid dgid dmode entries2 =>
                 scanDir bs childPath duid dgid dmode entries2 :
               Except CreateErr (List Block)) with
      | .error e => .error e
      | .ok head =>
          match scanEntries bs path rest with
          | .error e => .error e
          | .ok tail => .ok (head ++ tail)
termination_by (sizeOf entries, 0)

end

/-- The whole create run on one seeded directory: scan it, then hand the
blocks to the archive writer. -/
def createArchive (bs : Nat) (seed : List Nat) (uid gid mode : Nat) (entries : FsEntries) :
    Except CreateErr (List Nat) :=
  match scanDir bs seed uid gid mode entries with
  | .error e => .error e
  | .ok blocks =>
      match archiveWriter blocks with
      | none => .error .writerPanic
      | some out => .ok out

/-! ## The expected extraction result of a tree -/

mutual
/-- The directories and files extraction should materialize for a subtree
rooted at `path`, in stream order: the directory itself (ownership
applied, mode as archived), then its entries depth-first. -/
def flattenDir (path : List Nat) (uid gid mode : Nat) (entries : FsEntries) :
    List DirRecord × List FileRecord :=
  let rest := flattenEntries path entries
  (⟨path, some (uid, gid), mode⟩ :: rest.1, rest.2)
termination_by (sizeOf entries, 1)

/-- The per-entry part of `flattenDir`. -/
def flattenEntries (path : List Nat) (entries : FsEntries) :
    List DirRecord × List FileRecord :=
  match entries with
  | .nil => ([], [])
  | .cons name node rest =>
      let head := (match node with
        | .file fuid fgid fmode content =>
            (([] : List DirRecord),
              [⟨path ++ 47 :: name, some (fuid, fgid), some fmode, content⟩])
        | .dir duid dgid dmode entries2 =>
            flattenDir (path ++ 47 :: name) duid dgid dmode entries2 :
          List DirRecord × List FileRecord)
      let tail := flattenEntries path rest
      (head.1 ++ tail.1, head.2 ++ tail.2)
termination_by (sizeOf entries, 0)
end

/-! ## Well-formed trees

These record what is true of any real directory tree the scanner can
visit: entry names are nonempty slash-free byte strings other than `.`
and `..`, sibling names are distinct, ownership data fits in 32 bits,
and every path fits the wire format's 16-bit length field (real systems
bound paths far lower). -/

/-- A legal directory-entry name. -/
def validName (n : List Nat) : Bool :=
  !n.isEmpty && n.all (fun b => decide (b < 256)) && !n.contains 47 &&
  n != [46] && n != [46, 46]

/-- The names of a directory's entries, in order. -/
def entryNames : FsEntries → List (List Nat)
  | .nil => []
  | .cons n _ r => n :: entryNames r

/-- Pairwise distinctness of a name list. -/
def distinctNamesB : List (List Nat) → Bool
  | [] => true
  | n :: rest => !rest.contains n && distinctNamesB rest

mutual
/-- Well-formedness of a node mounted at `path`. -/
def nodeWf (path : List Nat) (node : FsNode) : Bool :=
  match node with
  | .file fuid fgid fmode content =>
      decide (fuid < 4294967296) && decide (fgid < 4294967296) &&
      decide (fmode < 4294967296) && content.all (fun b => decide (b < 256))
  | .dir duid dgid dmode entries =>
      decide (duid < 4294967296) && decide (dgid < 4294967296) &&
      decide (dmode < 4294967296) && distinctNamesB (entryNames entries) &&
      entriesWf path entries
termination_by sizeOf node

/-- Well-formedness of a directory's entries mounted at `path`. -/
def entriesWf (path : List Nat) (entries : FsEntries) : Bool :=
  match entries with
  | .nil => true
  | .cons name node rest =>
      validName name && decide (path.length + 1 + name.length ≤ 65535) &&
      nodeWf (path ++ 47 :: name) node && entriesWf path rest
termination_by sizeOf entries
end

/-- A legal seed directory argument: a nonempty relative path naming a
directory in the working directory (no separator), within the wire
format's length field. -/
def seedWf (seed : List Nat) : Bool :=
  !seed.isEmpty && seed.all (fun b => decide (b < 256)) && !seed.contains 47 &&
  decide (seed.length ≤ 65535)

/-- `q` lies at or strictly below `p` in the path hierarchy. -/
def Under (p q : List Nat) : Prop := q = p ∨ ∃ s, q = p ++ 47 :: s

/-- All paths materialized in an extraction state. -/
def pathsOf (st : ExtractState) : List (List Nat) :=
  st.dirs.map (fun d => d.path) ++ st.files.map (fun f => f.path)

/-- The extraction configuration of the round-trip claim: restore
ownership and permissions, write files. -/
def u0 : Unarchiver := ⟨false, false, false⟩

/-! ## Decoding the encoded frames -/

theorem beVal_u16be (n : Nat) : beVal (u16be n) = n % 65536 := by
  simp [beVal, u16be]
  omega

theorem beVal_u32be (n : Nat) : beVal (u32be n) = n % 4294967296 := by
  simp [beVal, u32be]
  omega

theorem beVal_u64be (n : Nat) : beVal (u64be n) = n % 18446744073709551616 := by
  simp [beVal, u64be]
  omega

theorem readBytes_exact {bs : List Nat} {k : Nat} (rest : List Nat) (h : bs.length = k) :
    readBytes k (bs ++ rest) = some (bs, rest) := by
  subst h
  simp [readBytes, List.take_left, List.drop_left]

/-- Decoding an `EndOfFile` frame laid down by `writeBlock`. -/
theorem parseStep_encode_endOfFile (path rest : List Nat)
    (hlen : path.length ≤ 65535) (habs : path.head? ≠ some 47) :
    parseStep (u16be path.length ++ path ++ [2] ++ rest) =
      .ok (some ⟨.endOfFile path,
        u16be path.length ++ path ++ [2],
        u16be path.length ++ path ++ [2], rest⟩) := by
  have e : u16be path.length ++ path ++ [2] ++ rest
      = path.length / 256 % 256 :: path.length % 256 :: (path ++ ([2] ++ rest)) := by
    simp [u16be]
  have h2 : readBytes 2 (path.length / 256 % 256 :: path.length % 256 :: (path ++ ([2] ++ rest)))
      = some (u16be path.length, path ++ ([2] ++ rest)) :=
    @readBytes_exact (u16be path.length) _ _ rfl
  have hbe : beVal (u16be path.length) = path.length := by
    rw [beVal_u16be]; omega
  have h3 : readBytes path.length (path ++ ([2] ++ rest)) = some (path, [2] ++ rest) :=
    @readBytes_exact path _ _ rfl
  have h4 : readBytes 1 ([2] ++ rest) = some ([2], rest) :=
    @readBytes_exact [2] _ _ rfl
  have hbv : beVal [2] = 2 := by simp [beVal]
  rw [e, parseStep.eq_def]
  simp only [h2, hbe, h3, habs, if_false, h4, hbv]
  simp [u16be]

/-- Decoding a `StartOfFile` frame laid down by `writeBlock`. -/
theorem parseStep_encode_startOfFile (path rest : List Nat) (uid gid mode : Nat)
    (hlen : path.length ≤ 65535) (habs : path.head? ≠ some 47) :
    parseStep (u16be path.length ++ path ++ [1] ++ u32be uid ++ u32be gid ++ u32be mode ++ rest) =
      .ok (some ⟨.startOfFile path (uid % 4294967296) (gid % 4294967296) (mode % 4294967296),
        u16be path.length ++ path ++ [1] ++ u32be uid ++ u32be gid ++ u32be mode,
        u16be path.length ++ path ++ [1] ++ u32be uid ++ u32be gid ++ u32be mode, rest⟩) := by
  have e : u16be path.length ++ path ++ [1] ++ u32be uid ++ u32be gid ++ u32be mode ++ rest
      = path.length / 256 % 256 :: path.length % 256 ::
        (path ++ ([1] ++ (u32be uid ++ (u32be gid ++ (u32be mode ++ rest))))) := by
    simp [u16be]
  have h2 : readBytes 2 (path.length / 256 % 256 :: path.length % 256 ::
        (path ++ ([1] ++ (u32be uid ++ (u32be gid ++ (u32be mode ++ rest))))))
      = some (u16be path.length, path ++ ([1] ++ (u32be uid ++ (u32be gid ++ (u32be mode ++ rest))))) :=
    @readBytes_exact (u16be path.length) _ _ rfl
  have hbe : beVal (u16be path.length) = path.length := by
    rw [beVal_u16be]; omega
  have h3 : readBytes path.length (path ++ ([1] ++ (u32be uid ++ (u32be gid ++ (u32be mode ++ rest)))))
      = some (path, [1] ++ (u32be uid ++ (u32be gid ++ (u32be mode ++ rest)))) :=
    @readBytes_exact path _ _ rfl
  have h4 : readBytes 1 ([1] ++ (u32be uid ++ (u32be gid ++ (u32be mode ++ rest))))
      = some ([1], u32be uid ++ (u32be gid ++ (u32be mode ++ rest))) :=
    @readBytes_exact [1] _ _ rfl
  have hbv : beVal [1] = 1 := by simp [beVal]
  have h5 : readBytes 4 (u32be uid ++ (u32be gid ++ (u32be mode ++ rest)))
      = some (u32be uid, u32be gid ++ (u32be mode ++ rest)) :=
    @readBytes_exact (u32be uid) _ _ rfl
  have h6 : readBytes 4 (u32be gid ++ (u32be mode ++ rest))
      = some (u32be gid, u32be mode ++ rest) :=
    @readBytes_exact (u32be gid) _ _ rfl
  have h7 : readBytes 4 (u32be mode ++ rest) = some (u32be mode, rest) :=
    @readBytes_exact (u32be mode) _ _ rfl
  rw [e, parseStep.eq_def]
  simp only [h2, hbe, h3, habs, if_false, h4, hbv, h5, h6, h7, beVal_u32be]
  simp [u16be]

/-- Decoding a `Directory` frame laid down by `writeBlock`. -/
theorem parseStep_encode_directory (path rest : List Nat) (uid gid mode : Nat)
    (hlen : path.length ≤ 65535) (habs : path.head? ≠ some 47) :
    parseStep (u16be path.length ++ path ++ [3] ++ u32be uid ++ u32be gid ++ u32be mode ++ rest) =
      .ok (some ⟨.directory path (uid % 4294967296) (gid % 4294967296) (mode % 4294967296),
        u16be path.length ++ path ++ [3] ++ u32be uid ++ u32be gid ++ u32be mode,
        u16be path.length ++ path ++ [3] ++ u32be uid ++ u32be gid ++ u32be mode, rest⟩) := by
  have e : u16be path.length ++ path ++ [3] ++ u32be uid ++ u32be gid ++ u32be mode ++ rest
      = path.length / 256 % 256 :: path.length % 256 ::
        (path ++ ([3] ++ (u32be uid ++ (u32be gid ++ (u32be mode ++ rest))))) := by
    simp [u16be]
  have h2 : readBytes 2 (path.length / 256 % 256 :: path.length % 256 ::
        (path ++ ([3] ++ (u32be uid ++ (u32be gid ++ (u32be mode ++ rest))))))
      = some (u16be path.length, path ++ ([3] ++ (u32be uid ++ (u32be gid ++ (u32be mode ++ rest))))) :=
    @readBytes_exact (u16be path.length) _ _ rfl
  have hbe : beVal (u16be path.length) = path.length := by
    rw [beVal_u16be]; omega
  have h3 : readBytes path.length (path ++ ([3] ++ (u32be uid ++ (u32be gid ++ (u32be mode ++ rest)))))
      = some (path, [3] ++ (u32be uid ++ (u32be gid ++ (u32be mode ++ rest)))) :=
    @readBytes_exact path _ _ rfl
  have h4 : readBytes 1 ([3] ++ (u32be uid ++ (u32be gid ++ (u32be mode ++ rest))))
      = some ([3], u32be uid ++ (u32be gid ++ (u32be mode ++ rest))) :=
    @readBytes_exact [3] _ _ rfl
  have hbv : beVal [3] = 3 := by simp [beVal]
  have h5 : readBytes 4 (u32be uid ++ (u32be gid ++ (u32be mode ++ rest)))
      = some (u32be uid, u32be gid ++ (u32be mode ++ rest)) :=
    @readBytes_exact (u32be uid) _ _ rfl
  have h6 : readBytes 4 (u32be gid ++ (u32be mode ++ rest))
      = some (u32be gid, u32be mode ++ rest) :=
    @readBytes_exact (u32be gid) _ _ rfl
  have h7 : readBytes 4 (u32be mode ++ rest) = some (u32be mode, rest) :=
    @readBytes_exact (u32be mode) _ _ rfl
  rw [e, parseStep.eq_def]
  simp only [h2, hbe, h3, habs, if_false, h4, hbv, h5, h6, h7, beVal_u32be]
  simp [u16be]

/-- Decoding a `Data` frame laid down by `writeBlock`. -/
theorem parseStep_encode_data (path payload rest : List Nat)
    (hlen : path.length ≤ 65535) (habs : path.head? ≠ some 47)
    (hpay : payload.length ≤ 65535) :
    parseStep (u16be path.length ++ path ++ [0] ++ u16be payload.length ++ payload ++ rest) =
      .ok (some ⟨.data path payload,
        u16be path.length ++ path ++ [0] ++ u16be payload.length ++ payload,
        u16be path.length ++ path ++ [0] ++ u16be payload.length ++ payload, rest⟩) := by
  have e : u16be path.length ++ path ++ [0] ++ u16be payload.length ++ payload ++ rest
      = path.length / 256 % 256 :: path.length % 256 ::
        (path ++ ([0] ++ (u16be payload.length ++ (payload ++ rest)))) := by
    simp [u16be]
  have h2 : readBytes 2 (path.length / 256 % 256 :: path.length % 256 ::
        (path ++ ([0] ++ (u16be payload.length ++ (payload ++ rest)))))
      = some (u16be path.length, path ++ ([0] ++ (u16be payload.length ++ (payload ++ rest)))) :=
    @readBytes_exact (u16be path.length) _ _ rfl
  have hbe : beVal (u16be path.length) = path.length := by
    rw [beVal_u16be]; omega
  have h3 : readBytes path.length (path ++ ([0] ++ (u16be payload.length ++ (payload ++ rest))))
      = some (path, [0] ++ (u16be payload.length ++ (payload ++ rest))) :=
    @readBytes_exact path _ _ rfl
  have h4 : readBytes 1 ([0] ++ (u16be payload.length ++ (payload ++ rest)))
      = some ([0], u16be payload.length ++ (payload ++ rest)) :=
    @readBytes_exact [0] _ _ rfl
  have hbv : beVal [0] = 0 := by simp [beVal]
  have h5 : readBytes 2 (u16be payload.length ++ (payload ++ rest))
      = some (u16be payload.length, payload ++ rest) :=
    @readBytes_exact (u16be payload.length) _ _ rfl
  have hbe2 : beVal (u16be payload.length) = payload.length := by
    rw [beVal_u16be]; omega
  have h6 : readBytes payload.length (payload ++ rest) = some (payload, rest) :=
    @readBytes_exact payload _ _ rfl
  rw [e, parseStep.eq_def]
  simp only [h2, hbe, h3, habs, if_false, h4, hbv, h5, hbe2, h6]
  simp [u16be]

/-- Decoding a checksum frame laid down by `writeChecksumBlock`: the value
seen by the reader is reduced modulo 2^64, and the digest comparison
point (`cut`) stops before the value bytes. -/
theorem parseStep_encode_checksum (v : Nat) (rest : List Nat) :
    parseStep (checksumBlockBytes v ++ rest) =
      .ok (some ⟨.checksum (v % 18446744073709551616),
        u16be 0 ++ [4] ++ u64be v,
        u16be 0 ++ [4], rest⟩) := by
  have e : checksumBlockBytes v ++ rest
      = 0 :: 0 :: (([] : List Nat) ++ ([4] ++ (u64be v ++ rest))) := by
    simp [checksumBlockBytes, u16be, BlockType.tag]
  have h2 : readBytes 2 ((0 : Nat) :: 0 :: (([] : List Nat) ++ ([4] ++ (u64be v ++ rest))))
      = some (u16be 0, [] ++ ([4] ++ (u64be v ++ rest))) :=
    @readBytes_exact (u16be 0) _ _ rfl
  have hbe : beVal (u16be 0) = 0 := by rw [beVal_u16be]
  have h3 : readBytes 0 (([] : List Nat) ++ ([4] ++ (u64be v ++ rest)))
      = some ([], [4] ++ (u64be v ++ rest)) :=
    @readBytes_exact ([] : List Nat) _ _ rfl
  have h4 : readBytes 1 ([4] ++ (u64be v ++ rest)) = some ([4], u64be v ++ rest) :=
    @readBytes_exact [4] _ _ rfl
  have hbv : beVal [4] = 4 := by simp [beVal]
  have h5 : readBytes 8 (u64be v ++ rest) = some (u64be v, rest) :=
    @readBytes_exact (u64be v) _ _ rfl
  rw [e, parseStep.eq_def]
  simp only [h2, hbe, h3, h4, hbv, h5, beVal_u64be]
  simp [u16be]

/-- Any frame whose path begins with the separator byte `/` makes the read
loop return `ErrAbsoluteDirectoryPath` as soon as the path has been read,
whatever follows it in the stream. -/
theorem parseStep_absolute (path rest : List Nat)
    (hlen : path.length ≤ 65535) (habs : path.head? = some 47) :
    parseStep (u16be path.length ++ path ++ rest) = .error .absoluteDirectoryPath := by
  have e : u16be path.length ++ path ++ rest
      = path.length / 256 % 256 :: path.length % 256 :: (path ++ rest) := by
    simp [u16be]
  have h2 : readBytes 2 (path.length / 256 % 256 :: path.length % 256 :: (path ++ rest))
      = some (u16be path.length, path ++ rest) :=
    @readBytes_exact (u16be path.length) _ _ rfl
  have hbe : beVal (u16be path.length) = path.length := by
    rw [beVal_u16be]; omega
  have h3 : readBytes path.length (path ++ rest) = some (path, rest) :=
    @readBytes_exact path _ _ rfl
  rw [e, parseStep.eq_def]
  simp only [h2, hbe, h3, habs, if_true, reduceIte]

/-! ## The writer's output shape, as the spec states it -/

/-- The checksum frame that follows an emitted prefix `pre`, per the spec's
accumulation rule: the stored value is the CRC64 of every byte written so
far, in order, up to but not including the value field itself — so the
current frame's two length bytes and tag byte are included, and so are
all previously written bytes, earlier checksum values among them. -/
def checksumFrameAfter (pre : List Nat) : List Nat :=
  u16be 0 ++ [BlockType.checksum.tag] ++
    u64be (crc64 (pre ++ u16be 0 ++ [BlockType.checksum.tag]))

/-- The output shape the spec describes: the frames of the queue blocks in
consumption order, one checksum frame inserted after every 1000th queue
block (checksum frames do not advance the counter), and one final
checksum frame once the queue is drained.  `acc` is everything written so
far (the header included). -/
def writerSpecLoop : List Block → Nat → List Nat → Option (List Nat)
  | [], _, acc => some (acc ++ checksumFrameAfter acc)
  | b :: rest, n, acc =>
      match b.writeBlock with
      | none => none
      | some frame =>
          let acc1 := acc ++ frame
          let acc2 := if (n + 1) % 1000 = 0 then acc1 ++ checksumFrameAfter acc1 else acc1
          writerSpecLoop rest (n + 1) acc2

/-- The spec's description of the whole output: the 8-byte header followed
by the interleaving above. -/
def writerSpec (blocks : List Block) : Option (List Nat) :=
  writerSpecLoop blocks 0 fastArchiverHeader

/-- Frame-aligned walk of a byte stream with the reader's decoder,
collecting, for every checksum frame met, the full byte prefix that
precedes its value field together with the stored value.  `hashed` is the
prefix already walked. -/
def collectChecksums (hashed input : List Nat) : List (List Nat × Nat) :=
  match h : parseStep input with
  | .error _ => []
  | .ok none => []
  | .ok (some s) =>
      let out := collectChecksums (hashed ++ s.consumed) s.rest
      match s.frame with
      | .checksum v => (hashed ++ s.cut, v) :: out
      | _ => out
termination_by input.length
decreasing_by
  obtain ⟨he, hl⟩ := parseStep_sound h
  have := congrArg List.length he
  simp only [List.length_append] at this
  omega

/-- The path field carried by a decoded frame (empty for a checksum frame,
whose path the reader discards). -/
def Frame.path : Frame → List Nat
  | .data p _ => p
  | .startOfFile p _ _ _ => p
  | .endOfFile p => p
  | .directory p _ _ _ => p
  | .checksum _ => []

/-- The frame a block's encoding denotes: the same fields, with the data
payload being the `numBytes` valid bytes of the buffer (exactly what
`writeBlock` emits). -/
def Block.toFrame (b : Block) : Frame :=
  match b.blockType with
  | .data => .data b.filePath (b.buffer.take b.numBytes)
  | .startOfFile => .startOfFile b.filePath b.uid b.gid b.mode
  | .endOfFile => .endOfFile b.filePath
  | .directory => .directory b.filePath b.uid b.gid b.mode
  | .checksum => .checksum 0

/-- The frame the reader decodes from a block's encoding: the same fields,
with the u32 fields reduced modulo 2^32 (the encoder truncates them) and
the data payload being the valid bytes of the buffer. -/
def Block.toFrameRead (b : Block) : Frame :=
  match b.blockType with
  | .data => .data b.filePath (b.buffer.take b.numBytes)
  | .startOfFile => .startOfFile b.filePath (b.uid % 4294967296) (b.gid % 4294967296)
      (b.mode % 4294967296)
  | .endOfFile => .endOfFile b.filePath
  | .directory => .directory b.filePath (b.uid % 4294967296) (b.gid % 4294967296)
      (b.mode % 4294967296)
  | .checksum => .checksum 0

/-- The extraction run, one queue block at a time: what the read loop does
to its state on a stream of encoded blocks, with the terminal wait on the
spawned goroutines at the end.  This is the reference against which the
byte-level loop is proved. -/
def applyBlocks (u : Unarchiver) : List Block → ExtractState → Except UErr ExtractState
  | [], st => if st.openFiles.isEmpty && !st.leaked then .ok st else .error .stuckWaitGroup
  | b :: rest, st =>
      if b.filePath.head? = some 47 then .error .absoluteDirectoryPath
      else
        match applyFrame u st b.toFrameRead with
        | .error e => .error e
        | .ok st1 => applyBlocks u rest st1

/-- The block-dispatch part of the read loop, without the terminal wait:
used to state how a sub-stream of blocks transforms the state. -/
def applyList (u : Unarchiver) : List Block → ExtractState → Except UErr ExtractState
  | [], st => .ok st
  | b :: rest, st =>
      if b.filePath.head? = some 47 then .error .absoluteDirectoryPath
      else
        match applyFrame u st b.toFrameRead with
        | .error e => .error e
        | .ok st1 => applyList u rest st1

theorem readBytes_parts {k : Nat} {input bs rest : List Nat}
    (h : readBytes k input = some (bs, rest)) :
    bs = input.take k ∧ rest = input.drop k := by
  unfold readBytes at h
  split at h
  · cases h; exact ⟨rfl, rfl⟩
  · cases h

/-- Whatever frame the reader decodes, the length of the path it carries is
bounded by the big-endian value of the first two stream bytes (the
declared path length). -/
theorem parseStep_pathBound {input : List Nat} {s : StepOut}
    (h : parseStep input = .ok (some s)) :
    s.frame.path.length ≤ beVal (input.take 2) := by
  unfold parseStep at h
  split at h
  · cases h
  · split at h
    · cases h
    case _ szb r1 hrb1 =>
      obtain ⟨hp1, _⟩ := readBytes_parts hrb1
      split at h
      · cases h
      case _ path r2 hrb2 =>
        obtain ⟨_, hl2, _⟩ := readBytes_append hrb2
        split at h
        · cases h
        · split at h
          · cases h
          case _ tagb r3 hrb3 =>
            split at h
            · split at h
              · cases h
              case _ uidb r4 hrb4 =>
                split at h
                · cases h
                case _ gidb r5 hrb5 =>
                  split at h
                  · cases h
                  case _ modeb r6 hrb6 =>
                    cases h
                    simp [Frame.path, hl2, ← hp1]
            · split at h
              · cases h
                simp [Frame.path, hl2, ← hp1]
              · split at h
                · split at h
                  · cases h
                  case _ szb2 r4 hrb4 =>
                    split at h
                    · cases h
                    case _ payload r5 hrb5 =>
                      cases h
                      simp [Frame.path, hl2, ← hp1]
                · split at h
                  · split at h
                    · cases h
                    case _ uidb r4 hrb4 =>
                      split at h
                      · cases h
                      case _ gidb r5 hrb5 =>
                        split at h
                        · cases h
                        case _ modeb r6 hrb6 =>
                          cases h
                          simp [Frame.path, hl2, ← hp1]
                  · split at h
                    · split at h
                      case _ valb r4 hrb4 =>
                        cases h
                        simp [Frame.path]
                      case _ =>
                        cases h
                        simp [Frame.path]
                    · cases h

/-- Every frame `writeBlock` emits starts with the 16-bit truncated path
length followed by all the path bytes. -/
theorem writeBlock_shape {b : Block} {bytes : List Nat} (h : b.writeBlock = some bytes) :
    ∃ tail, bytes = u16be b.filePath.length ++ b.filePath ++ tail := by
  cases hbt : b.blockType <;> simp only [Block.writeBlock, hbt] at h
  · split at h
    · cases h
      exact ⟨[BlockType.tag .data] ++ u16be b.numBytes ++ b.buffer.take b.numBytes, by
        simp [List.append_assoc]⟩
    · cases h
  · cases h
    exact ⟨[BlockType.tag .startOfFile] ++ u32be b.uid ++ u32be b.gid ++ u32be b.mode, by
      simp [List.append_assoc]⟩
  · cases h
    exact ⟨[BlockType.tag .endOfFile], rfl⟩
  · cases h
    exact ⟨[BlockType.tag .directory] ++ u32be b.uid ++ u32be b.gid ++ u32be b.mode, by
      simp [List.append_assoc]⟩
  · cases h

/-! ## The claims -/

/-- C2: `writeBlock` emits, in big-endian order, the u16 path length, the
path bytes, the kind-tag byte (Data=0, StartOfFile=1, EndOfFile=2,
Directory=3, Checksum=4), and the kind-specific tail (u16 size plus
payload for Data; uid/gid/mode as three u32 for StartOfFile and
Directory; nothing for EndOfFile), `writeChecksumBlock` the zero path
length, tag 4 and a u64 value; and the reader's decoder reads back
exactly these fields in the same order: decoding an encoded well-formed
block (path within the u16 range and not absolute, counts within the u16
range, ownership within the u32 range) yields exactly that block's frame
and consumes exactly its bytes. -/
theorem c2_block_frame_codec (b : Block) (bytes rest : List Nat)
    (hlen : b.filePath.length ≤ 65535) (habs : b.filePath.head? ≠ some 47)
    (hnb : b.numBytes ≤ 65535)
    (huid : b.uid < 4294967296) (hgid : b.gid < 4294967296) (hmode : b.mode < 4294967296)
    (henc : b.writeBlock = some bytes) :
    parseStep (bytes ++ rest) = .ok (some ⟨b.toFrame, bytes, bytes, rest⟩)
    ∧ ∀ v < 18446744073709551616,
        parseStep (checksumBlockBytes v ++ rest) =
          .ok (some ⟨.checksum v, checksumBlockBytes v,
            u16be 0 ++ [BlockType.checksum.tag], rest⟩) := by
  constructor
  · cases hbt : b.blockType <;> simp only [Block.writeBlock, hbt] at henc
    · split at henc
      case _ hle =>
        cases henc
        have hplen : (b.buffer.take b.numBytes).length = b.numBytes := by
          simp [List.length_take]
          omega
        have := parseStep_encode_data b.filePath (b.buffer.take b.numBytes) rest hlen habs
          (by rw [hplen]; exact hnb)
        rw [hplen] at this
        simpa [Block.toFrame, hbt, BlockType.tag, List.append_assoc] using this
      · cases henc
    · cases henc
      have := parseStep_encode_startOfFile b.filePath rest b.uid b.gid b.mode hlen habs
      rw [Nat.mod_eq_of_lt huid, Nat.mod_eq_of_lt hgid, Nat.mod_eq_of_lt hmode] at this
      simpa [Block.toFrame, hbt, BlockType.tag, List.append_assoc] using this
    · cases henc
      have := parseStep_encode_endOfFile b.filePath rest hlen habs
      simpa [Block.toFrame, hbt, BlockType.tag, List.append_assoc] using this
    · cases henc
      have := parseStep_encode_directory b.filePath rest b.uid b.gid b.mode hlen habs
      rw [Nat.mod_eq_of_lt huid, Nat.mod_eq_of_lt hgid, Nat.mod_eq_of_lt hmode] at this
      simpa [Block.toFrame, hbt, BlockType.tag, List.append_assoc] using this
    · cases henc
  · intro v hv
    have := parseStep_encode_checksum v rest
    rwa [Nat.mod_eq_of_lt hv, checksumBlockBytes] at this

/-- C10: the encoder's u16 length field carries `len(path) mod 2^16` while
all the path bytes are written, so a frame with a path of at most 65535
bytes declares its true path length (and parses back to that path), while
a frame with a longer path declares a different length and no parse of
its bytes can return the original path. -/
theorem c10_path_length_truncation :
    (∀ (b : Block) (bytes : List Nat), b.writeBlock = some bytes →
        b.filePath.length ≤ 65535 →
        beVal (bytes.take 2) = b.filePath.length ∧
        (bytes.drop 2).take b.filePath.length = b.filePath)
    ∧ (∀ (b : Block) (bytes : List Nat), b.writeBlock = some bytes →
        65535 < b.filePath.length →
        beVal (bytes.take 2) ≠ b.filePath.length ∧
        ∀ (rest : List Nat) (s : StepOut),
          parseStep (bytes ++ rest) = .ok (some s) → s.frame.path ≠ b.filePath) := by
  have htake2 : ∀ (b : Block) (bytes : List Nat), b.writeBlock = some bytes →
      bytes.take 2 = u16be b.filePath.length ∧
      (bytes.drop 2).take b.filePath.length = b.filePath := by
    intro b bytes h
    obtain ⟨tail, ht⟩ := writeBlock_shape h
    subst ht
    constructor
    · rw [List.append_assoc, show (2 : Nat) = (u16be b.filePath.length).length from rfl,
        List.take_left]
    · rw [List.append_assoc, show (2 : Nat) = (u16be b.filePath.length).length from rfl,
        List.drop_left, List.take_left]
  constructor
  · intro b bytes h hle
    obtain ⟨h1, h2⟩ := htake2 b bytes h
    refine ⟨?_, h2⟩
    rw [h1, beVal_u16be]
    omega
  · intro b bytes h hgt
    obtain ⟨h1, h2⟩ := htake2 b bytes h
    constructor
    · rw [h1, beVal_u16be]
      omega
    · intro rest s hp
      have hb := parseStep_pathBound hp
      obtain ⟨tail, ht⟩ := writeBlock_shape h
      have he : (bytes ++ rest).take 2 = u16be b.filePath.length := by
        subst ht
        rw [List.append_assoc, List.append_assoc,
          show (2 : Nat) = (u16be b.filePath.length).length from rfl, List.take_left]
      rw [he, beVal_u16be] at hb
      intro hcontra
      rw [hcontra] at hb
      omega

/-- C6: an input of at least 8 bytes whose first 8 bytes differ from the
magic `0x89 'F' 'A' '1' 0x0D 0x0A 0x1A 0x0A` makes `Run` fail with the
header-mismatch error before any block is dispatched or any filesystem
effect happens (the run ends in the error state with nothing applied);
when the first 8 bytes equal the magic, `Run` proceeds to the block loop
on the remaining stream. -/
theorem c6_header_rejection (u : Unarchiver) (input : List Nat) (h8 : 8 ≤ input.length) :
    (input.take 8 ≠ fastArchiverHeader → runUnarchiver u input = .error .fileHeaderMismatch)
    ∧ (input.take 8 = fastArchiverHeader →
        runUnarchiver u input = blockLoop u (input.take 8) (input.drop 8) initialExtractState) := by
  constructor
  · intro hne
    unfold runUnarchiver
    rw [if_neg (by omega), if_pos hne]
  · intro heq
    unfold runUnarchiver
    rw [if_neg (by omega), if_neg (by simp [heq])]

theorem crc64_append (a b : List Nat) : crc64 (a ++ b) = crc64update (crc64 a) b :=
  crc64update_append 0 a b

/-! ## Well-formedness of producer blocks and boundedness facts -/

theorem u16be_lt {n x : Nat} (h : x ∈ u16be n) : x < 256 := by
  simp only [u16be, List.mem_cons, List.not_mem_nil, or_false] at h
  rcases h with rfl | rfl <;> omega

theorem u32be_lt {n x : Nat} (h : x ∈ u32be n) : x < 256 := by
  simp only [u32be, List.mem_cons, List.not_mem_nil, or_false] at h
  rcases h with rfl | rfl | rfl | rfl <;> omega

theorem u64be_lt {n x : Nat} (h : x ∈ u64be n) : x < 256 := by
  simp only [u64be, List.mem_cons, List.not_mem_nil, or_false] at h
  rcases h with rfl | rfl | rfl | rfl | rfl | rfl | rfl | rfl <;> omega

theorem crc64round_lt {c : Nat} (h : c < 18446744073709551616) :
    crc64round c < 18446744073709551616 := by
  unfold crc64round
  split
  · have h1 : c / 2 < 2 ^ 64 := by omega
    have h2 : crc64ECMA < 2 ^ 64 := by norm_num [crc64ECMA]
    have := Nat.xor_lt_two_pow h1 h2
    simpa using this
  · omega

theorem crc64byte_lt {c b : Nat} (hc : c < 18446744073709551616) (hb : b < 18446744073709551616) :
    crc64byte c b < 18446744073709551616 := by
  unfold crc64byte
  have h0 : Nat.xor c b < 18446744073709551616 := by
    have := @Nat.xor_lt_two_pow _ _ 64 (by simpa using hc) (by simpa using hb)
    simpa using this
  exact crc64round_lt (crc64round_lt (crc64round_lt (crc64round_lt
    (crc64round_lt (crc64round_lt (crc64round_lt (crc64round_lt h0)))))))

theorem crc64update_lt {c : Nat} {p : List Nat} (hc : c < 18446744073709551616)
    (hp : ∀ x ∈ p, x < 256) : crc64update c p < 18446744073709551616 := by
  unfold crc64update
  have hm : mask64 < 18446744073709551616 := by norm_num [mask64]
  have hfold : ∀ (q : List Nat) (a : Nat), a < 18446744073709551616 →
      (∀ x ∈ q, x < 256) → q.foldl crc64byte a < 18446744073709551616 := by
    intro q
    induction q with
    | nil => intro a ha _; simpa using ha
    | cons y ys ih =>
        intro a ha hq
        simp only [List.foldl_cons]
        exact ih _ (crc64byte_lt ha (by have := hq y (by simp); omega))
          (fun x hx => hq x (by simp [hx]))
  have h1 : Nat.xor c mask64 < 18446744073709551616 := by
    have := @Nat.xor_lt_two_pow _ _ 64 (by simpa using hc) (by simpa using hm)
    simpa using this
  have h2 := hfold p _ h1 hp
  have := @Nat.xor_lt_two_pow _ _ 64 (by simpa using h2) (by simpa using hm)
  simpa using this

theorem crc64_lt {p : List Nat} (hp : ∀ x ∈ p, x < 256) :
    crc64 p < 18446744073709551616 :=
  crc64update_lt (by omega) hp

/-- The producer invariant on queue blocks: a path within the u16 range, a
valid-byte count within the u16 range, and genuine byte content.  Every
block `DirectoryScanner` or `FileReader` enqueues satisfies this for any
real path and buffer. -/
def BlockWf (b : Block) : Prop :=
  b.filePath.length ≤ 65535 ∧ b.numBytes ≤ 65535 ∧
  (∀ x ∈ b.filePath, x < 256) ∧ (∀ x ∈ b.buffer, x < 256)

theorem writeBlock_bytes_lt {b : Block} {frame : List Nat} (h : b.writeBlock = some frame)
    (hwf : BlockWf b) : ∀ x ∈ frame, x < 256 := by
  obtain ⟨-, -, hp, hb⟩ := hwf
  have htag : b.blockType.tag < 256 := by cases b.blockType <;> simp [BlockType.tag]
  cases hbt : b.blockType <;> simp only [Block.writeBlock, hbt] at h
  · split at h
    · cases h
      intro x hx
      simp only [List.append_assoc, List.mem_append, List.mem_singleton] at hx
      rcases hx with hx | hx | hx | hx | hx
      · exact u16be_lt hx
      · exact hp x hx
      · subst hx; simpa [hbt] using htag
      · exact u16be_lt hx
      · exact hb x (List.take_subset _ _ hx)
    · cases h
  · cases h
    intro x hx
    simp only [List.append_assoc, List.mem_append, List.mem_singleton] at hx
    rcases hx with hx | hx | hx | hx | hx | hx
    · exact u16be_lt hx
    · exact hp x hx
    · subst hx; simpa [hbt] using htag
    · exact u32be_lt hx
    · exact u32be_lt hx
    · exact u32be_lt hx
  · cases h
    intro x hx
    simp only [List.append_assoc, List.mem_append, List.mem_singleton] at hx
    rcases hx with hx | hx | hx
    · exact u16be_lt hx
    · exact hp x hx
    · subst hx; simpa [hbt] using htag
  · cases h
    intro x hx
    simp only [List.append_assoc, List.mem_append, List.mem_singleton] at hx
    rcases hx with hx | hx | hx | hx | hx | hx
    · exact u16be_lt hx
    · exact hp x hx
    · subst hx; simpa [hbt] using htag
    · exact u32be_lt hx
    · exact u32be_lt hx
    · exact u32be_lt hx
  · cases h

/-- Decoding any frame `writeBlock` emits, for a block with a non-absolute
in-range path: the reader gets back exactly the block's fields. -/
theorem parseStep_writeBlock {b : Block} {frame : List Nat} (rest : List Nat)
    (h : b.writeBlock = some frame) (hlen : b.filePath.length ≤ 65535)
    (hnb : b.numBytes ≤ 65535) (habs : b.filePath.head? ≠ some 47) :
    parseStep (frame ++ rest) = .ok (some ⟨b.toFrameRead, frame, frame, rest⟩) := by
  cases hbt : b.blockType <;> simp only [Block.writeBlock, hbt] at h
  · split at h
    case _ hle =>
      cases h
      have hplen : (b.buffer.take b.numBytes).length = b.numBytes := by
        simp [List.length_take]; omega
      have := parseStep_encode_data b.filePath (b.buffer.take b.numBytes) rest hlen habs
        (by rw [hplen]; exact hnb)
      rw [hplen] at this
      simpa [Block.toFrameRead, hbt, BlockType.tag, List.append_assoc] using this
    · cases h
  · cases h
    have := parseStep_encode_startOfFile b.filePath rest b.uid b.gid b.mode hlen habs
    simpa [Block.toFrameRead, hbt, BlockType.tag, List.append_assoc] using this
  · cases h
    have := parseStep_encode_endOfFile b.filePath rest hlen habs
    simpa [Block.toFrameRead, hbt, BlockType.tag, List.append_assoc] using this
  · cases h
    have := parseStep_encode_directory b.filePath rest b.uid b.gid b.mode hlen habs
    simpa [Block.toFrameRead, hbt, BlockType.tag, List.append_assoc] using this
  · cases h

theorem checksumBlockBytes_lt {v x : Nat} (h : x ∈ checksumBlockBytes v) : x < 256 := by
  simp only [checksumBlockBytes, List.append_assoc, List.mem_append, List.mem_singleton] at h
  rcases h with h | h | h
  · exact u16be_lt h
  · subst h; simp [BlockType.tag]
  · exact u64be_lt h

theorem checksumFrameAfter_eq (acc : List Nat) :
    checksumFrameAfter acc =
      checksumBlockBytes (crc64update (crc64 acc) (u16be 0 ++ [BlockType.checksum.tag])) := by
  rw [checksumFrameAfter, checksumBlockBytes, ← crc64_append]
  simp [List.append_assoc]

theorem writerSpecLoop_eq (blocks : List Block) : ∀ (n : Nat) (acc : List Nat),
    writerSpecLoop blocks n acc =
      (archiveWriterLoop blocks n (crc64 acc)).map (fun out => acc ++ out) := by
  induction blocks with
  | nil =>
      intro n acc
      simp only [writerSpecLoop, archiveWriterLoop, Option.map_some', emitChecksum]
      rw [checksumFrameAfter_eq]
  | cons b rest ih =>
      intro n acc
      simp only [writerSpecLoop, archiveWriterLoop]
      cases hw : b.writeBlock with
      | none => simp
      | some frame =>
          simp only []
          have hst1 : crc64update (crc64 acc) frame = crc64 (acc ++ frame) :=
            (crc64_append acc frame).symm
          by_cases hmod : (n + 1) % 1000 = 0
          · simp only [hmod, reduceIte, if_pos, emitChecksum, hst1]
            rw [ih]
            have hcs : checksumFrameAfter (acc ++ frame) =
                checksumBlockBytes (crc64update (crc64 (acc ++ frame))
                  (u16be 0 ++ [BlockType.checksum.tag])) := checksumFrameAfter_eq _
            have hst2 : crc64update (crc64update (crc64 (acc ++ frame))
                  (u16be 0 ++ [BlockType.checksum.tag]))
                  (u64be (crc64update (crc64 (acc ++ frame)) (u16be 0 ++ [BlockType.checksum.tag])))
                = crc64 ((acc ++ frame) ++ checksumFrameAfter (acc ++ frame)) := by
              simp only [checksumFrameAfter, crc64, ← crc64update_append, List.append_assoc]
            rw [← hst2, hcs]
            cases archiveWriterLoop rest (n + 1)
                (crc64update (crc64update (crc64 (acc ++ frame))
                  (u16be 0 ++ [BlockType.checksum.tag]))
                  (u64be (crc64update (crc64 (acc ++ frame))
                    (u16be 0 ++ [BlockType.checksum.tag])))) with
            | none => simp
            | some out => simp [List.append_assoc]
          · simp only [hmod, reduceIte, if_neg, hst1]
            rw [ih]
            cases archiveWriterLoop rest (n + 1) (crc64 (acc ++ frame)) with
            | none => simp
            | some out => simp [List.append_assoc]

theorem mem_append_lt {a b : List Nat} (ha : ∀ x ∈ a, x < 256) (hb : ∀ x ∈ b, x < 256) :
    ∀ x ∈ a ++ b, x < 256 := by
  intro x hx
  rcases List.mem_append.mp hx with h | h
  · exact ha x h
  · exact hb x h

theorem checksumFraming_lt :
    ∀ x ∈ u16be 0 ++ [BlockType.checksum.tag], x < 256 := by
  intro x hx
  rcases List.mem_append.mp hx with h | h
  · exact u16be_lt h
  · simp only [List.mem_singleton] at h
    subst h
    simp [BlockType.tag]

theorem toFrameRead_ne_checksum {b : Block} {frame : List Nat}
    (h : b.writeBlock = some frame) : ∀ v, b.toFrameRead ≠ .checksum v := by
  intro v
  cases hbt : b.blockType
  · simp [Block.toFrameRead, hbt]
  · simp [Block.toFrameRead, hbt]
  · simp [Block.toFrameRead, hbt]
  · simp [Block.toFrameRead, hbt]
  · simp only [Block.writeBlock, hbt] at h
    cases h

/-- After a block frame, an interleaved checksum frame verifies against the
running digest and the loop continues on the remaining stream. -/
theorem blockLoop_checksum_then (u : Unarchiver) (rest : List Block)
    (ih : ∀ (n : Nat) (hashed out : List Nat) (st : ExtractState),
      (∀ b ∈ rest, BlockWf b) → (∀ x ∈ hashed, x < 256) →
      archiveWriterLoop rest n (crc64 hashed) = some out →
      blockLoop u hashed out st = applyBlocks u rest st)
    (n : Nat) (hashed frame out2 : List Nat) (st1 : ExtractState)
    (hrwf : ∀ x ∈ rest, BlockWf x) (hh : ∀ x ∈ hashed, x < 256)
    (hfb : ∀ x ∈ frame, x < 256) (hhf : ∀ x ∈ hashed ++ frame, x < 256)
    (hrest : archiveWriterLoop rest (n + 1)
      (emitChecksum (crc64 (hashed ++ frame))).2 = some out2) :
    blockLoop u (hashed ++ frame) ((emitChecksum (crc64 (hashed ++ frame))).1 ++ out2) st1
      = applyBlocks u rest st1 := by
  simp only [emitChecksum, checksumBlockBytes, BlockType.tag] at hrest ⊢
  have hcf4 : ∀ x ∈ u16be 0 ++ [4], x < 256 := checksumFraming_lt
  have hvlt : crc64update (crc64 (hashed ++ frame)) (u16be 0 ++ [4])
      < 18446744073709551616 :=
    crc64update_lt (crc64_lt hhf) hcf4
  have hp := parseStep_encode_checksum
    (crc64update (crc64 (hashed ++ frame)) (u16be 0 ++ [4])) out2
  rw [Nat.mod_eq_of_lt hvlt] at hp
  simp only [checksumBlockBytes, BlockType.tag] at hp
  rw [blockLoop_parse_checksum hp]
  have hpass : crc64update 0 (hashed ++ frame ++ (u16be 0 ++ [4]))
      = crc64update (crc64 (hashed ++ frame)) (u16be 0 ++ [4]) := by
    have := crc64update_append 0 (hashed ++ frame) (u16be 0 ++ [4])
    simpa [crc64] using this
  rw [hpass, if_pos rfl]
  apply ih (n + 1)
  · exact hrwf
  · apply mem_append_lt hhf
    intro x hx
    exact @checksumBlockBytes_lt (crc64update (crc64 (hashed ++ frame)) (u16be 0 ++ [4])) _
      (by simpa [checksumBlockBytes, BlockType.tag] using hx)
  · rw [crc64_append, crc64update_append]
    exact hrest

/-- The read loop of `Run`, fed the writer loop's output for a block queue
of well-formed blocks, behaves exactly as the block-level run
`applyBlocks`: every interleaved checksum frame verifies and is skipped,
and every block frame decodes back to the block that produced it. -/
theorem blockLoop_writerLoop (u : Unarchiver) (blocks : List Block) :
    ∀ (n : Nat) (hashed out : List Nat) (st : ExtractState),
      (∀ b ∈ blocks, BlockWf b) → (∀ x ∈ hashed, x < 256) →
      archiveWriterLoop blocks n (crc64 hashed) = some out →
      blockLoop u hashed out st = applyBlocks u blocks st := by
  induction blocks with
  | nil =>
      intro n hashed out st _ hh hw
      simp only [archiveWriterLoop, emitChecksum, Option.some.injEq] at hw
      subst hw
      simp only [checksumBlockBytes, BlockType.tag]
      have hcf4 : ∀ x ∈ u16be 0 ++ [4], x < 256 := checksumFraming_lt
      have hvlt : crc64update (crc64 hashed) (u16be 0 ++ [4]) < 18446744073709551616 :=
        crc64update_lt (crc64_lt hh) hcf4
      have hp := parseStep_encode_checksum (crc64update (crc64 hashed) (u16be 0 ++ [4])) []
      rw [List.append_nil, Nat.mod_eq_of_lt hvlt] at hp
      simp only [checksumBlockBytes, BlockType.tag] at hp
      rw [blockLoop_parse_checksum hp]
      have hpass : crc64update 0 (hashed ++ (u16be 0 ++ [4]))
          = crc64update (crc64 hashed) (u16be 0 ++ [4]) := by
        have := crc64update_append 0 hashed (u16be 0 ++ [4])
        simpa [crc64] using this
      rw [hpass, if_pos rfl]
      rw [blockLoop_parse_none (show parseStep [] = .ok none from rfl)]
      simp [applyBlocks]
  | cons b rest ih =>
      intro n hashed out st hwf hh hw
      have hbwf : BlockWf b := hwf b (by simp)
      have hrwf : ∀ x ∈ rest, BlockWf x := fun x hx => hwf x (by simp [hx])
      simp only [archiveWriterLoop] at hw
      cases hwb : b.writeBlock with
      | none => rw [hwb] at hw; cases hw
      | some frame =>
          rw [hwb] at hw
          simp only [] at hw
          have hfb : ∀ x ∈ frame, x < 256 := writeBlock_bytes_lt hwb hbwf
          have hcr : crc64update (crc64 hashed) frame = crc64 (hashed ++ frame) :=
            (crc64_append hashed frame).symm
          rw [hcr] at hw
          have hhf : ∀ x ∈ hashed ++ frame, x < 256 := mem_append_lt hh hfb
          by_cases hmod : (n + 1) % 1000 = 0
          · rw [if_pos hmod] at hw
            cases hrest : archiveWriterLoop rest (n + 1)
                (emitChecksum (crc64 (hashed ++ frame))).2 with
            | none => rw [hrest] at hw; simp at hw
            | some out2 =>
                rw [hrest] at hw
                simp only [Option.map_some', Option.some.injEq] at hw
                subst hw
                by_cases habs : b.filePath.head? = some 47
                · obtain ⟨tail, hshape⟩ := writeBlock_shape hwb
                  have hform : frame ++ (emitChecksum (crc64 (hashed ++ frame))).1 ++ out2
                      = u16be b.filePath.length ++ b.filePath ++
                        (tail ++ ((emitChecksum (crc64 (hashed ++ frame))).1 ++ out2)) := by
                    rw [hshape]
                    simp [List.append_assoc]
                  rw [hform, blockLoop_parse_error (parseStep_absolute _ _ hbwf.1 habs)]
                  simp [applyBlocks, habs]
                · have hps := parseStep_writeBlock
                    ((emitChecksum (crc64 (hashed ++ frame))).1 ++ out2) hwb hbwf.1 hbwf.2.1 habs
                  rw [List.append_assoc, blockLoop_parse_frame hps (toFrameRead_ne_checksum hwb)]
                  simp only [applyBlocks]
                  rw [if_neg habs]
                  cases happ : applyFrame u st b.toFrameRead with
                  | error e => simp only [happ]
                  | ok st1 =>
                      simp only [happ]
                      exact blockLoop_checksum_then u rest ih n hashed frame out2 st1
                        hrwf hh hfb hhf hrest
          · rw [if_neg hmod] at hw
            cases hrest : archiveWriterLoop rest (n + 1) (crc64 (hashed ++ frame)) with
            | none => rw [hrest] at hw; simp at hw
            | some out2 =>
                rw [hrest] at hw
                simp only [Option.map_some', Option.some.injEq] at hw
                subst hw
                by_cases habs : b.filePath.head? = some 47
                · obtain ⟨tail, hshape⟩ := writeBlock_shape hwb
                  have hform : frame ++ out2
                      = u16be b.filePath.length ++ b.filePath ++ (tail ++ out2) := by
                    rw [hshape]
                    simp [List.append_assoc]
                  rw [hform, blockLoop_parse_error (parseStep_absolute _ _ hbwf.1 habs)]
                  simp [applyBlocks, habs]
                · have hps := parseStep_writeBlock out2 hwb hbwf.1 hbwf.2.1 habs
                  rw [blockLoop_parse_frame hps (toFrameRead_ne_checksum hwb)]
                  simp only [applyBlocks]
                  rw [if_neg habs]
                  cases happ : applyFrame u st b.toFrameRead with
                  | error e => simp only [happ]
                  | ok st1 =>
                      simp only [happ]
                      exact ih (n + 1) (hashed ++ frame) out2 st1 hrwf hhf hrest

/-! ## A concrete archive with two checksum blocks

The writer emits an intermediate checksum only after its 1000th queue
block, so the smallest archives with two checksum frames come from
1000-block queues.  The queue of 1000 `EndOfFile` blocks for path `"a"`
is worked out symbolically here; the CRC64 values are then computed in
bounded chunks. -/

/-- One `EndOfFile` block for path `"a"`. -/
def eofBlockA : Block := ⟨[97], 0, [], .endOfFile, 0, 0, 0⟩

/-- Its 4-byte frame. -/
def eofFrameA : List Nat := [0, 1, 97, 2]

/-- `k` copies of that frame. -/
def framesA : Nat → List Nat
  | 0 => []
  | k + 1 => eofFrameA ++ framesA k

/-- The bare CRC64 state fold (no pre/post complement). -/
def crcRaw (s : Nat) (p : List Nat) : Nat := p.foldl crc64byte s

theorem crcRaw_append (s : Nat) (a b : List Nat) :
    crcRaw s (a ++ b) = crcRaw (crcRaw s a) b := by
  simp [crcRaw, List.foldl_append]

theorem crc64_as_raw (p : List Nat) :
    crc64 p = Nat.xor (crcRaw (Nat.xor 0 mask64) p) mask64 := rfl

theorem crc64update_as_raw (c : Nat) (p : List Nat) :
    crc64update c p = Nat.xor (crcRaw (Nat.xor c mask64) p) mask64 := rfl

theorem framesA_add (a b : Nat) : framesA (a + b) = framesA a ++ framesA b := by
  induction a with
  | zero => simp [framesA]
  | succ a ih =>
      have : a + 1 + b = (a + b) + 1 := by omega
      rw [this, framesA, ih, framesA, List.append_assoc]

theorem eofBlockA_writeBlock : eofBlockA.writeBlock = some eofFrameA := rfl

/-- The writer loop on `k` remaining `EndOfFile "a"` blocks with the block
counter at `n = 1000 - k`: the `k` frames, then the checksum triggered by
the 1000th block, then the final checksum written after the queue
drains.  Each stored value is the digest over everything emitted before
it, the preceding checksum block's value bytes included. -/
theorem archiveWriterLoop_replicate_eofA :
    ∀ (k n crcSt : Nat), n + k = 1000 → 0 < k →
      archiveWriterLoop (List.replicate k eofBlockA) n crcSt =
        some (framesA k ++
          checksumBlockBytes
            (crc64update crcSt (framesA k ++ u16be 0 ++ [BlockType.checksum.tag])) ++
          checksumBlockBytes
            (crc64update crcSt (framesA k ++
              checksumBlockBytes
                (crc64update crcSt (framesA k ++ u16be 0 ++ [BlockType.checksum.tag])) ++
              u16be 0 ++ [BlockType.checksum.tag]))) := by
  intro k
  induction k with
  | zero => intro n crcSt h h0; omega
  | succ k ih =>
      intro n crcSt hsum _
      rw [List.replicate_succ]
      simp only [archiveWriterLoop, eofBlockA_writeBlock]
      by_cases hk : k = 0
      · subst hk
        have hn : n = 999 := by omega
        subst hn
        have h1000 : (999 + 1) % 1000 = 0 := by norm_num
        simp only [h1000, if_pos, reduceIte, List.replicate, archiveWriterLoop,
          Option.map_some', Option.some.injEq, emitChecksum]
        simp only [framesA, checksumBlockBytes, List.append_nil, List.append_assoc,
          ← crc64update_append]
      · have hne : ¬ ((n + 1) % 1000 = 0) := by omega
        simp only [hne, if_neg, reduceIte]
        rw [ih (n + 1) (crc64update crcSt eofFrameA) (by omega) (by omega)]
        simp only [Option.map_some', Option.some.injEq]
        simp only [framesA, checksumBlockBytes, List.append_nil, List.append_assoc,
          ← crc64update_append]

set_option maxRecDepth 6000

/-- The raw digest state after the 8-byte header, and after each further
ten frames of `c4blocks`'s archive: each step advances 40 bytes, keeping
every kernel evaluation within its reduction depth. -/
theorem crcChain0 : crcRaw (Nat.xor 0 mask64) fastArchiverHeader = 10205134211030420613 := by decide

theorem crcChain1 : crcRaw 10205134211030420613 (framesA 10) = 11112443261463022241 := by decide

theorem crcChain2 : crcRaw 11112443261463022241 (framesA 10) = 17652536983454589773 := by decide

theorem crcChain3 : crcRaw 17652536983454589773 (framesA 10) = 9852564707630570710 := by decide

theorem crcChain4 : crcRaw 9852564707630570710 (framesA 10) = 17899691936333333422 := by decide

theorem crcChain5 : crcRaw 17899691936333333422 (framesA 10) = 8830784195869453961 := by decide

theorem crcChain6 : crcRaw 8830784195869453961 (framesA 10) = 14936638818985731926 := by decide

theorem crcChain7 : crcRaw 14936638818985731926 (framesA 10) = 4670232061924120092 := by decide

theorem crcChain8 : crcRaw 4670232061924120092 (framesA 10) = 18371683229209543801 := by decide

theorem crcChain9 : crcRaw 18371683229209543801 (framesA 10) = 8709405872598762321 := by decide

theorem crcChain10 : crcRaw 8709405872598762321 (framesA 10) = 9932990493644491150 := by decide

theorem crcChain11 : crcRaw 9932990493644491150 (framesA 10) = 17313120437200080199 := by decide

theorem crcChain12 : crcRaw 17313120437200080199 (framesA 10) = 11341241435536324633 := by decide

theorem crcChain13 : crcRaw 11341241435536324633 (framesA 10) = 12496359610350186735 := by decide

theorem crcChain14 : crcRaw 12496359610350186735 (framesA 10) = 18250222227480842235 := by decide

theorem crcChain15 : crcRaw 18250222227480842235 (framesA 10) = 5052643716759141410 := by decide

theorem crcChain16 : crcRaw 5052643716759141410 (framesA 10) = 1182342174677951803 := by decide

theorem crcChain17 : crcRaw 1182342174677951803 (framesA 10) = 1274553070728102226 := by decide

theorem crcChain18 : crcRaw 1274553070728102226 (framesA 10) = 13077873749815168908 := by decide

theorem crcChain19 : crcRaw 13077873749815168908 (framesA 10) = 7528327382405661338 := by decide

theorem crcChain20 : crcRaw 7528327382405661338 (framesA 10) = 7895195438470492945 := by decide

theorem crcChain21 : crcRaw 7895195438470492945 (framesA 10) = 8786742429574690574 := by decide

theorem crcChain22 : crcRaw 8786742429574690574 (framesA 10) = 13453226107585107850 := by decide

theorem crcChain23 : crcRaw 13453226107585107850 (framesA 10) = 1771753828645157054 := by decide

theorem crcChain24 : crcRaw 1771753828645157054 (framesA 10) = 5332293569786533493 := by decide

theorem crcChain25 : crcRaw 5332293569786533493 (framesA 10) = 10968502854902213451 := by decide

theorem crcChain26 : crcRaw 10968502854902213451 (framesA 10) = 9849337331320457962 := by decide

theorem crcChain27 : crcRaw 9849337331320457962 (framesA 10) = 9072168353870001519 := by decide

theorem crcChain28 : crcRaw 9072168353870001519 (framesA 10) = 4814169559579543752 := by decide

theorem crcChain29 : crcRaw 4814169559579543752 (framesA 10) = 17203851386788305853 := by decide

theorem crcChain30 : crcRaw 17203851386788305853 (framesA 10) = 3452093425081186122 := by decide

theorem crcChain31 : crcRaw 3452093425081186122 (framesA 10) = 7521469527041487712 := by decide

theorem crcChain32 : crcRaw 7521469527041487712 (framesA 10) = 12004558889739573458 := by decide

theorem crcChain33 : crcRaw 12004558889739573458 (framesA 10) = 770316952146309594 := by decide

theorem crcChain34 : crcRaw 770316952146309594 (framesA 10) = 9592638280277756623 := by decide

theorem crcChain35 : crcRaw 9592638280277756623 (framesA 10) = 4853359272602802110 := by decide

theorem crcChain36 : crcRaw 4853359272602802110 (framesA 10) = 8837357041042775384 := by decide

theorem crcChain37 : crcRaw 8837357041042775384 (framesA 10) = 16975499276996688030 := by decide

theorem crcChain38 : crcRaw 16975499276996688030 (framesA 10) = 89041605017938355 := by decide

theorem crcChain39 : crcRaw 89041605017938355 (framesA 10) = 2272028960046959830 := by decide

theorem crcChain40 : crcRaw 2272028960046959830 (framesA 10) = 7671723149132588087 := by decide

theorem crcChain41 : crcRaw 7671723149132588087 (framesA 10) = 5943072265374685261 := by decide

theorem crcChain42 : crcRaw 5943072265374685261 (framesA 10) = 5216371690404761379 := by decide

theorem crcChain43 : crcRaw 5216371690404761379 (framesA 10) = 10821886770104074430 := by decide

theorem crcChain44 : crcRaw 10821886770104074430 (framesA 10) = 17547596357847891784 := by decide

theorem crcChain45 : crcRaw 17547596357847891784 (framesA 10) = 14221055388841056344 := by decide

theorem crcChain46 : crcRaw 14221055388841056344 (framesA 10) = 17815398461080249783 := by decide

theorem crcChain47 : crcRaw 17815398461080249783 (framesA 10) = 10570842918306150088 := by decide

theorem crcChain48 : crcRaw 10570842918306150088 (framesA 10) = 10299544656473873444 := by decide

theorem crcChain49 : crcRaw 10299544656473873444 (framesA 10) = 6852988210398083818 := by decide

theorem crcChain50 : crcRaw 6852988210398083818 (framesA 10) = 13605094380242530329 := by decide

theorem crcChain51 : crcRaw 13605094380242530329 (framesA 10) = 17398577655692405449 := by decide

theorem crcChain52 : crcRaw 17398577655692405449 (framesA 10) = 12509780109554161232 := by decide

theorem crcChain53 : crcRaw 12509780109554161232 (framesA 10) = 5502883941861905055 := by decide

theorem crcChain54 : crcRaw 5502883941861905055 (framesA 10) = 12319174382963575164 := by decide

theorem crcChain55 : crcRaw 12319174382963575164 (framesA 10) = 15005654237930602647 := by decide

theorem crcChain56 : crcRaw 15005654237930602647 (framesA 10) = 11866537620906602616 := by decide

theorem crcChain57 : crcRaw 11866537620906602616 (framesA 10) = 12604122757438650172 := by decide

theorem crcChain58 : crcRaw 12604122757438650172 (framesA 10) = 9259153349254341445 := by decide

theorem crcChain59 : crcRaw 9259153349254341445 (framesA 10) = 6450360327354154678 := by decide

theorem crcChain60 : crcRaw 6450360327354154678 (framesA 10) = 5763343114286010335 := by decide

theorem crcChain61 : crcRaw 5763343114286010335 (framesA 10) = 11442375710963757784 := by decide

theorem crcChain62 : crcRaw 11442375710963757784 (framesA 10) = 16382280605949938937 := by decide

theorem crcChain63 : crcRaw 16382280605949938937 (framesA 10) = 14674116540834098195 := by decide

theorem crcChain64 : crcRaw 14674116540834098195 (framesA 10) = 13658366421531625642 := by decide

theorem crcChain65 : crcRaw 13658366421531625642 (framesA 10) = 7702271463850213128 := by decide

theorem crcChain66 : crcRaw 7702271463850213128 (framesA 10) = 18402161400662328724 := by decide

theorem crcChain67 : crcRaw 18402161400662328724 (framesA 10) = 12484617017388681813 := by decide

theorem crcChain68 : crcRaw 12484617017388681813 (framesA 10) = 10042732869709129181 := by decide

theorem crcChain69 : crcRaw 10042732869709129181 (framesA 10) = 13553544275369960771 := by decide

theorem crcChain70 : crcRaw 13553544275369960771 (framesA 10) = 6373023061038187999 := by decide

theorem crcChain71 : crcRaw 6373023061038187999 (framesA 10) = 15793783181621129661 := by decide

theorem crcChain72 : crcRaw 15793783181621129661 (framesA 10) = 7197577831381627472 := by decide

theorem crcChain73 : crcRaw 7197577831381627472 (framesA 10) = 3862253631229801356 := by decide

theorem crcChain74 : crcRaw 3862253631229801356 (framesA 10) = 18204438232086614324 := by decide

theorem crcChain75 : crcRaw 18204438232086614324 (framesA 10) = 17899319426190325404 := by decide

theorem crcChain76 : crcRaw 17899319426190325404 (framesA 10) = 66766063686537172 := by decide

theorem crcChain77 : crcRaw 66766063686537172 (framesA 10) = 12304032462520465824 := by decide

theorem crcChain78 : crcRaw 12304032462520465824 (framesA 10) = 8297535053467243382 := by decide

theorem crcChain79 : crcRaw 8297535053467243382 (framesA 10) = 1334646907982653417 := by decide

theorem crcChain80 : crcRaw 1334646907982653417 (framesA 10) = 6724916423346206039 := by decide

theorem crcChain81 : crcRaw 6724916423346206039 (framesA 10) = 16770063575382911024 := by decide

theorem crcChain82 : crcRaw 16770063575382911024 (framesA 10) = 2565098640434317960 := by decide

theorem crcChain83 : crcRaw 2565098640434317960 (framesA 10) = 14033579515276319584 := by decide

theorem crcChain84 : crcRaw 14033579515276319584 (framesA 10) = 191913524699526142 := by decide

theorem crcChain85 : crcRaw 191913524699526142 (framesA 10) = 10859340576244964091 := by decide

theorem crcChain86 : crcRaw 10859340576244964091 (framesA 10) = 5330168319971897784 := by decide

theorem crcChain87 : crcRaw 5330168319971897784 (framesA 10) = 14284839891451851532 := by decide

theorem crcChain88 : crcRaw 14284839891451851532 (framesA 10) = 5620175678565865830 := by decide

theorem crcChain89 : crcRaw 5620175678565865830 (framesA 10) = 5359936622992299337 := by decide

theorem crcChain90 : crcRaw 5359936622992299337 (framesA 10) = 2490772871954306522 := by decide

theorem crcChain91 : crcRaw 2490772871954306522 (framesA 10) = 18433611290078734532 := by decide

theorem crcChain92 : crcRaw 18433611290078734532 (framesA 10) = 14615159507365393377 := by decide

theorem crcChain93 : crcRaw 14615159507365393377 (framesA 10) = 15487756090115735841 := by decide

theorem crcChain94 : crcRaw 15487756090115735841 (framesA 10) = 10301823776502704810 := by decide

theorem crcChain95 : crcRaw 10301823776502704810 (framesA 10) = 9038356991083066057 := by decide

theorem crcChain96 : crcRaw 9038356991083066057 (framesA 10) = 8429335810103881670 := by decide

theorem crcChain97 : crcRaw 8429335810103881670 (framesA 10) = 11544917781603782060 := by decide

theorem crcChain98 : crcRaw 11544917781603782060 (framesA 10) = 17727332160929033728 := by decide

theorem crcChain99 : crcRaw 17727332160929033728 (framesA 10) = 8045550054793519917 := by decide

theorem crcChain100 : crcRaw 8045550054793519917 (framesA 10) = 11332608801164766208 := by decide

/-- The raw digest state after the header and all 1000 frames. -/
theorem crcTrunk : crcRaw 10205134211030420613 (framesA 1000) = 11332608801164766208 := by
  rw [show (1000 : Nat) = 10 + 990 by norm_num, framesA_add, crcRaw_append, crcChain1]
  rw [show (990 : Nat) = 10 + 980 by norm_num, framesA_add, crcRaw_append, crcChain2]
  rw [show (980 : Nat) = 10 + 970 by norm_num, framesA_add, crcRaw_append, crcChain3]
  rw [show (970 : Nat) = 10 + 960 by norm_num, framesA_add, crcRaw_append, crcChain4]
  rw [show (960 : Nat) = 10 + 950 by norm_num, framesA_add, crcRaw_append, crcChain5]
  rw [show (950 : Nat) = 10 + 940 by norm_num, framesA_add, crcRaw_append, crcChain6]
  rw [show (940 : Nat) = 10 + 930 by norm_num, framesA_add, crcRaw_append, crcChain7]
  rw [show (930 : Nat) = 10 + 920 by norm_num, framesA_add, crcRaw_append, crcChain8]
  rw [show (920 : Nat) = 10 + 910 by norm_num, framesA_add, crcRaw_append, crcChain9]
  rw [show (910 : Nat) = 10 + 900 by norm_num, framesA_add, crcRaw_append, crcChain10]
  rw [show (900 : Nat) = 10 + 890 by norm_num, framesA_add, crcRaw_append, crcChain11]
  rw [show (890 : Nat) = 10 + 880 by norm_num, framesA_add, crcRaw_append, crcChain12]
  rw [show (880 : Nat) = 10 + 870 by norm_num, framesA_add, crcRaw_append, crcChain13]
  rw [show (870 : Nat) = 10 + 860 by norm_num, framesA_add, crcRaw_append, crcChain14]
  rw [show (860 : Nat) = 10 + 850 by norm_num, framesA_add, crcRaw_append, crcChain15]
  rw [show (850 : Nat) = 10 + 840 by norm_num, framesA_add, crcRaw_append, crcChain16]
  rw [show (840 : Nat) = 10 + 830 by norm_num, framesA_add, crcRaw_append, crcChain17]
  rw [show (830 : Nat) = 10 + 820 by norm_num, framesA_add, crcRaw_append, crcChain18]
  rw [show (820 : Nat) = 10 + 810 by norm_num, framesA_add, crcRaw_append, crcChain19]
  rw [show (810 : Nat) = 10 + 800 by norm_num, framesA_add, crcRaw_append, crcChain20]
  rw [show (800 : Nat) = 10 + 790 by norm_num, framesA_add, crcRaw_append, crcChain21]
  rw [show (790 : Nat) = 10 + 780 by norm_num, framesA_add, crcRaw_append, crcChain22]
  rw [show (780 : Nat) = 10 + 770 by norm_num, framesA_add, crcRaw_append, crcChain23]
  rw [show (770 : Nat) = 10 + 760 by norm_num, framesA_add, crcRaw_append, crcChain24]
  rw [show (760 : Nat) = 10 + 750 by norm_num, framesA_add, crcRaw_append, crcChain25]
  rw [show (750 : Nat) = 10 + 740 by norm_num, framesA_add, crcRaw_append, crcChain26]
  rw [show (740 : Nat) = 10 + 730 by norm_num, framesA_add, crcRaw_append, crcChain27]
  rw [show (730 : Nat) = 10 + 720 by norm_num, framesA_add, crcRaw_append, crcChain28]
  rw [show (720 : Nat) = 10 + 710 by norm_num, framesA_add, crcRaw_append, crcChain29]
  rw [show (710 : Nat) = 10 + 700 by norm_num, framesA_add, crcRaw_append, crcChain30]
  rw [show (700 : Nat) = 10 + 690 by norm_num, framesA_add, crcRaw_append, crcChain31]
  rw [show (690 : Nat) = 10 + 680 by norm_num, framesA_add, crcRaw_append, crcChain32]
  rw [show (680 : Nat) = 10 + 670 by norm_num, framesA_add, crcRaw_append, crcChain33]
  rw [show (670 : Nat) = 10 + 660 by norm_num, framesA_add, crcRaw_append, crcChain34]
  rw [show (660 : Nat) = 10 + 650 by norm_num, framesA_add, crcRaw_append, crcChain35]
  rw [show (650 : Nat) = 10 + 640 by norm_num, framesA_add, crcRaw_append, crcChain36]
  rw [show (640 : Nat) = 10 + 630 by norm_num, framesA_add, crcRaw_append, crcChain37]
  rw [show (630 : Nat) = 10 + 620 by norm_num, framesA_add, crcRaw_append, crcChain38]
  rw [show (620 : Nat) = 10 + 610 by norm_num, framesA_add, crcRaw_append, crcChain39]
  rw [show (610 : Nat) = 10 + 600 by norm_num, framesA_add, crcRaw_append, crcChain40]
  rw [show (600 : Nat) = 10 + 590 by norm_num, framesA_add, crcRaw_append, crcChain41]
  rw [show (590 : Nat) = 10 + 580 by norm_num, framesA_add, crcRaw_append, crcChain42]
  rw [show (580 : Nat) = 10 + 570 by norm_num, framesA_add, crcRaw_append, crcChain43]
  rw [show (570 : Nat) = 10 + 560 by norm_num, framesA_add, crcRaw_append, crcChain44]
  rw [show (560 : Nat) = 10 + 550 by norm_num, framesA_add, crcRaw_append, crcChain45]
  rw [show (550 : Nat) = 10 + 540 by norm_num, framesA_add, crcRaw_append, crcChain46]
  rw [show (540 : Nat) = 10 + 530 by norm_num, framesA_add, crcRaw_append, crcChain47]
  rw [show (530 : Nat) = 10 + 520 by norm_num, framesA_add, crcRaw_append, crcChain48]
  rw [show (520 : Nat) = 10 + 510 by norm_num, framesA_add, crcRaw_append, crcChain49]
  rw [show (510 : Nat) = 10 + 500 by norm_num, framesA_add, crcRaw_append, crcChain50]
  rw [show (500 : Nat) = 10 + 490 by norm_num, framesA_add, crcRaw_append, crcChain51]
  rw [show (490 : Nat) = 10 + 480 by norm_num, framesA_add, crcRaw_append, crcChain52]
  rw [show (480 : Nat) = 10 + 470 by norm_num, framesA_add, crcRaw_append, crcChain53]
  rw [show (470 : Nat) = 10 + 460 by norm_num, framesA_add, crcRaw_append, crcChain54]
  rw [show (460 : Nat) = 10 + 450 by norm_num, framesA_add, crcRaw_append, crcChain55]
  rw [show (450 : Nat) = 10 + 440 by norm_num, framesA_add, crcRaw_append, crcChain56]
  rw [show (440 : Nat) = 10 + 430 by norm_num, framesA_add, crcRaw_append, crcChain57]
  rw [show (430 : Nat) = 10 + 420 by norm_num, framesA_add, crcRaw_append, crcChain58]
  rw [show (420 : Nat) = 10 + 410 by norm_num, framesA_add, crcRaw_append, crcChain59]
  rw [show (410 : Nat) = 10 + 400 by norm_num, framesA_add, crcRaw_append, crcChain60]
  rw [show (400 : Nat) = 10 + 390 by norm_num, framesA_add, crcRaw_append, crcChain61]
  rw [show (390 : Nat) = 10 + 380 by norm_num, framesA_add, crcRaw_append, crcChain62]
  rw [show (380 : Nat) = 10 + 370 by norm_num, framesA_add, crcRaw_append, crcChain63]
  rw [show (370 : Nat) = 10 + 360 by norm_num, framesA_add, crcRaw_append, crcChain64]
  rw [show (360 : Nat) = 10 + 350 by norm_num, framesA_add, crcRaw_append, crcChain65]
  rw [show (350 : Nat) = 10 + 340 by norm_num, framesA_add, crcRaw_append, crcChain66]
  rw [show (340 : Nat) = 10 + 330 by norm_num, framesA_add, crcRaw_append, crcChain67]
  rw [show (330 : Nat) = 10 + 320 by norm_num, framesA_add, crcRaw_append, crcChain68]
  rw [show (320 : Nat) = 10 + 310 by norm_num, framesA_add, crcRaw_append, crcChain69]
  rw [show (310 : Nat) = 10 + 300 by norm_num, framesA_add, crcRaw_append, crcChain70]
  rw [show (300 : Nat) = 10 + 290 by norm_num, framesA_add, crcRaw_append, crcChain71]
  rw [show (290 : Nat) = 10 + 280 by norm_num, framesA_add, crcRaw_append, crcChain72]
  rw [show (280 : Nat) = 10 + 270 by norm_num, framesA_add, crcRaw_append, crcChain73]
  rw [show (270 : Nat) = 10 + 260 by norm_num, framesA_add, crcRaw_append, crcChain74]
  rw [show (260 : Nat) = 10 + 250 by norm_num, framesA_add, crcRaw_append, crcChain75]
  rw [show (250 : Nat) = 10 + 240 by norm_num, framesA_add, crcRaw_append, crcChain76]
  rw [show (240 : Nat) = 10 + 230 by norm_num, framesA_add, crcRaw_append, crcChain77]
  rw [show (230 : Nat) = 10 + 220 by norm_num, framesA_add, crcRaw_append, crcChain78]
  rw [show (220 : Nat) = 10 + 210 by norm_num, framesA_add, crcRaw_append, crcChain79]
  rw [show (210 : Nat) = 10 + 200 by norm_num, framesA_add, crcRaw_append, crcChain80]
  rw [show (200 : Nat) = 10 + 190 by norm_num, framesA_add, crcRaw_append, crcChain81]
  rw [show (190 : Nat) = 10 + 180 by norm_num, framesA_add, crcRaw_append, crcChain82]
  rw [show (180 : Nat) = 10 + 170 by norm_num, framesA_add, crcRaw_append, crcChain83]
  rw [show (170 : Nat) = 10 + 160 by norm_num, framesA_add, crcRaw_append, crcChain84]
  rw [show (160 : Nat) = 10 + 150 by norm_num, framesA_add, crcRaw_append, crcChain85]
  rw [show (150 : Nat) = 10 + 140 by norm_num, framesA_add, crcRaw_append, crcChain86]
  rw [show (140 : Nat) = 10 + 130 by norm_num, framesA_add, crcRaw_append, crcChain87]
  rw [show (130 : Nat) = 10 + 120 by norm_num, framesA_add, crcRaw_append, crcChain88]
  rw [show (120 : Nat) = 10 + 110 by norm_num, framesA_add, crcRaw_append, crcChain89]
  rw [show (110 : Nat) = 10 + 100 by norm_num, framesA_add, crcRaw_append, crcChain90]
  rw [show (100 : Nat) = 10 + 90 by norm_num, framesA_add, crcRaw_append, crcChain91]
  rw [show (90 : Nat) = 10 + 80 by norm_num, framesA_add, crcRaw_append, crcChain92]
  rw [show (80 : Nat) = 10 + 70 by norm_num, framesA_add, crcRaw_append, crcChain93]
  rw [show (70 : Nat) = 10 + 60 by norm_num, framesA_add, crcRaw_append, crcChain94]
  rw [show (60 : Nat) = 10 + 50 by norm_num, framesA_add, crcRaw_append, crcChain95]
  rw [show (50 : Nat) = 10 + 40 by norm_num, framesA_add, crcRaw_append, crcChain96]
  rw [show (40 : Nat) = 10 + 30 by norm_num, framesA_add, crcRaw_append, crcChain97]
  rw [show (30 : Nat) = 10 + 20 by norm_num, framesA_add, crcRaw_append, crcChain98]
  rw [show (20 : Nat) = 10 + 10 by norm_num, framesA_add, crcRaw_append, crcChain99]
  exact crcChain100

/-- The 1000-block queue: the smallest queue whose archive holds two
checksum blocks. -/
def c4blocks : List Block := List.replicate 1000 eofBlockA

/-- The digest state holding the header (the writer's state when the first
queue block arrives). -/
def c4crcSt : Nat := crc64update 0 fastArchiverHeader

/-- The value stored in the archive's first checksum block. -/
def c4v1 : Nat := crc64update c4crcSt (framesA 1000 ++ u16be 0 ++ [BlockType.checksum.tag])

/-- The value stored in the archive's second (final) checksum block. -/
def c4v2 : Nat := crc64update c4crcSt (framesA 1000 ++ checksumBlockBytes c4v1 ++
  u16be 0 ++ [BlockType.checksum.tag])

/-- The archive the writer emits for `c4blocks`. -/
def c4out : List Nat := fastArchiverHeader ++
  (framesA 1000 ++ checksumBlockBytes c4v1 ++ checksumBlockBytes c4v2)

theorem c4writer : archiveWriter c4blocks = some c4out := by
  rw [archiveWriter]
  simp only [c4blocks]
  rw [archiveWriterLoop_replicate_eofA 1000 0 (crc64update 0 fastArchiverHeader)
      (by norm_num) (by norm_num)]
  rfl

theorem c4v1_value : c4v1 = 4090748926977690679 := by
  have h : c4v1 = crc64 (fastArchiverHeader ++ (framesA 1000 ++ u16be 0 ++
      [BlockType.checksum.tag])) := by
    rw [c4v1, c4crcSt, crc64]
    exact (crc64update_append 0 fastArchiverHeader _).symm
  rw [h, crc64_as_raw]
  simp only [crcRaw_append, List.append_assoc]
  rw [crcChain0, crcTrunk]
  decide

theorem c4v2_value : c4v2 = 15927866793180887274 := by
  have h : c4v2 = crc64 (fastArchiverHeader ++ (framesA 1000 ++ checksumBlockBytes c4v1 ++
      u16be 0 ++ [BlockType.checksum.tag])) := by
    rw [c4v2, c4crcSt, crc64]
    exact (crc64update_append 0 fastArchiverHeader _).symm
  rw [h, c4v1_value, crc64_as_raw]
  simp only [crcRaw_append, List.append_assoc]
  rw [crcChain0, crcTrunk]
  decide

theorem c4claimB_value : crc64 (fastArchiverHeader ++ framesA 1000 ++ u16be 0 ++
    [BlockType.checksum.tag] ++ u16be 0 ++ [BlockType.checksum.tag])
    = 15071153177939452367 := by
  rw [crc64_as_raw]
  simp only [crcRaw_append, List.append_assoc]
  rw [crcChain0, crcTrunk]
  decide

theorem c4claimA_value : crc64 (fastArchiverHeader ++ framesA 1000 ++ u16be 0 ++
    [BlockType.checksum.tag]) = 4090748926977690679 := by
  rw [crc64_as_raw]
  simp only [crcRaw_append, List.append_assoc]
  rw [crcChain0, crcTrunk]
  decide

theorem collect_parse_error {hashed input : List Nat} {e : UErr}
    (h : parseStep input = .error e) : collectChecksums hashed input = [] := by
  rw [collectChecksums]
  split <;> simp_all

theorem collect_parse_none {hashed input : List Nat}
    (h : parseStep input = .ok none) : collectChecksums hashed input = [] := by
  rw [collectChecksums]
  split <;> simp_all

theorem collect_parse_checksum {hashed input : List Nat} {v : Nat} {c k r : List Nat}
    (h : parseStep input = .ok (some ⟨.checksum v, c, k, r⟩)) :
    collectChecksums hashed input = (hashed ++ k, v) :: collectChecksums (hashed ++ c) r := by
  rw [collectChecksums]
  split <;> simp_all

theorem collect_parse_frame {hashed input : List Nat} {f : Frame} {c k r : List Nat}
    (h : parseStep input = .ok (some ⟨f, c, k, r⟩)) (hf : ∀ v, f ≠ .checksum v) :
    collectChecksums hashed input = collectChecksums (hashed ++ c) r := by
  rw [collectChecksums]
  split
  · simp_all
  · simp_all
  case _ s heq =>
    rw [h] at heq
    simp only [Except.ok.injEq, Option.some.injEq] at heq
    subst heq
    cases f with
    | checksum v => exact absurd rfl (hf v)
    | data p pay => rfl
    | startOfFile p a b c => rfl
    | endOfFile p => rfl
    | directory p a b c => rfl

/-- After a block frame, an interleaved checksum frame contributes one
correctly accumulated pair to the collected list. -/
theorem collect_checksum_then (rest : List Block)
    (ih : ∀ (n : Nat) (hashed out : List Nat),
      (∀ b ∈ rest, BlockWf b) → (∀ x ∈ hashed, x < 256) →
      archiveWriterLoop rest n (crc64 hashed) = some out →
      ∀ pr ∈ collectChecksums hashed out, pr.2 = crc64 pr.1)
    (n : Nat) (hashed frame out2 : List Nat)
    (hrwf : ∀ x ∈ rest, BlockWf x) (hhf : ∀ x ∈ hashed ++ frame, x < 256)
    (hrest : archiveWriterLoop rest (n + 1)
      (emitChecksum (crc64 (hashed ++ frame))).2 = some out2) :
    ∀ pr ∈ collectChecksums (hashed ++ frame)
      ((emitChecksum (crc64 (hashed ++ frame))).1 ++ out2), pr.2 = crc64 pr.1 := by
  simp only [emitChecksum, checksumBlockBytes, BlockType.tag] at hrest ⊢
  have hcf4 : ∀ x ∈ u16be 0 ++ [4], x < 256 := checksumFraming_lt
  have hvlt : crc64update (crc64 (hashed ++ frame)) (u16be 0 ++ [4])
      < 18446744073709551616 :=
    crc64update_lt (crc64_lt hhf) hcf4
  have hp := parseStep_encode_checksum
    (crc64update (crc64 (hashed ++ frame)) (u16be 0 ++ [4])) out2
  rw [Nat.mod_eq_of_lt hvlt] at hp
  simp only [checksumBlockBytes, BlockType.tag] at hp
  rw [collect_parse_checksum hp]
  intro pr hpr
  rcases List.mem_cons.mp hpr with h1 | h1
  · subst h1
    show crc64update (crc64 (hashed ++ frame)) (u16be 0 ++ [4])
        = crc64 ((hashed ++ frame) ++ (u16be 0 ++ [4]))
    rw [crc64_append (hashed ++ frame) (u16be 0 ++ [4])]
  · refine ih (n + 1) ((hashed ++ frame) ++ (u16be 0 ++ [4] ++
      u64be (crc64update (crc64 (hashed ++ frame)) (u16be 0 ++ [4])))) out2 hrwf ?_ ?_ pr h1
    · apply mem_append_lt hhf
      intro x hx
      exact @checksumBlockBytes_lt (crc64update (crc64 (hashed ++ frame)) (u16be 0 ++ [4])) _
        (by simpa [checksumBlockBytes, BlockType.tag] using hx)
    · rw [crc64_append, crc64update_append]
      exact hrest

/-- Every checksum pair the frame walk collects from the writer loop's
output stores the CRC64 of its full preceding byte prefix. -/
theorem collect_writerLoop (blocks : List Block) :
    ∀ (n : Nat) (hashed out : List Nat),
      (∀ b ∈ blocks, BlockWf b) → (∀ x ∈ hashed, x < 256) →
      archiveWriterLoop blocks n (crc64 hashed) = some out →
      ∀ pr ∈ collectChecksums hashed out, pr.2 = crc64 pr.1 := by
  induction blocks with
  | nil =>
      intro n hashed out _ hh hw
      simp only [archiveWriterLoop, emitChecksum, Option.some.injEq] at hw
      subst hw
      simp only [checksumBlockBytes, BlockType.tag]
      have hcf4 : ∀ x ∈ u16be 0 ++ [4], x < 256 := checksumFraming_lt
      have hvlt : crc64update (crc64 hashed) (u16be 0 ++ [4]) < 18446744073709551616 :=
        crc64update_lt (crc64_lt hh) hcf4
      have hp := parseStep_encode_checksum (crc64update (crc64 hashed) (u16be 0 ++ [4])) []
      rw [List.append_nil, Nat.mod_eq_of_lt hvlt] at hp
      simp only [checksumBlockBytes, BlockType.tag] at hp
      rw [collect_parse_checksum hp]
      intro pr hpr
      rcases List.mem_cons.mp hpr with h1 | h1
      · subst h1
        show crc64update (crc64 hashed) (u16be 0 ++ [4]) = crc64 (hashed ++ (u16be 0 ++ [4]))
        rw [crc64_append]
      · rw [collect_parse_none (show parseStep [] = .ok none from rfl)] at h1
        cases h1
  | cons b rest ih =>
      intro n hashed out hwf hh hw
      have hbwf : BlockWf b := hwf b (by simp)
      have hrwf : ∀ x ∈ rest, BlockWf x := fun x hx => hwf x (by simp [hx])
      simp only [archiveWriterLoop] at hw
      cases hwb : b.writeBlock with
      | none => rw [hwb] at hw; cases hw
      | some frame =>
          rw [hwb] at hw
          simp only [] at hw
          have hfb : ∀ x ∈ frame, x < 256 := writeBlock_bytes_lt hwb hbwf
          have hcr : crc64update (crc64 hashed) frame = crc64 (hashed ++ frame) :=
            (crc64_append hashed frame).symm
          rw [hcr] at hw
          have hhf : ∀ x ∈ hashed ++ frame, x < 256 := mem_append_lt hh hfb
          by_cases hmod : (n + 1) % 1000 = 0
          · rw [if_pos hmod] at hw
            cases hrest : archiveWriterLoop rest (n + 1)
                (emitChecksum (crc64 (hashed ++ frame))).2 with
            | none => rw [hrest] at hw; simp at hw
            | some out2 =>
                rw [hrest] at hw
                simp only [Option.map_some', Option.some.injEq] at hw
                subst hw
                by_cases habs : b.filePath.head? = some 47
                · obtain ⟨tail, hshape⟩ := writeBlock_shape hwb
                  have hform : frame ++ (emitChecksum (crc64 (hashed ++ frame))).1 ++ out2
                      = u16be b.filePath.length ++ b.filePath ++
                        (tail ++ ((emitChecksum (crc64 (hashed ++ frame))).1 ++ out2)) := by
                    rw [hshape]
                    simp [List.append_assoc]
                  rw [hform, collect_parse_error (parseStep_absolute _ _ hbwf.1 habs)]
                  intro pr hpr
                  cases hpr
                · have hps := parseStep_writeBlock
                    ((emitChecksum (crc64 (hashed ++ frame))).1 ++ out2) hwb hbwf.1 hbwf.2.1 habs
                  rw [List.append_assoc, collect_parse_frame hps (toFrameRead_ne_checksum hwb)]
                  exact collect_checksum_then rest ih n hashed frame out2 hrwf hhf hrest
          · rw [if_neg hmod] at hw
            cases hrest : archiveWriterLoop rest (n + 1) (crc64 (hashed ++ frame)) with
            | none => rw [hrest] at hw; simp at hw
            | some out2 =>
                rw [hrest] at hw
                simp only [Option.map_some', Option.some.injEq] at hw
                subst hw
                by_cases habs : b.filePath.head? = some 47
                · obtain ⟨tail, hshape⟩ := writeBlock_shape hwb
                  have hform : frame ++ out2
                      = u16be b.filePath.length ++ b.filePath ++ (tail ++ out2) := by
                    rw [hshape]
                    simp [List.append_assoc]
                  rw [hform, collect_parse_error (parseStep_absolute _ _ hbwf.1 habs)]
                  intro pr hpr
                  cases hpr
                · have hps := parseStep_writeBlock out2 hwb hbwf.1 hbwf.2.1 habs
                  rw [collect_parse_frame hps (toFrameRead_ne_checksum hwb)]
                  exact ih (n + 1) (hashed ++ frame) out2 hrwf hhf hrest

theorem header_bytes_lt : ∀ x ∈ fastArchiverHeader, x < 256 := by decide

/-- C4 (amended): every checksum frame the frame-aligned walk finds in an
archive produced by the writer stores the CRC64 of the complete byte
prefix that precedes its 8-byte value field — the file header, every
prior frame in full (the u64 values of previously emitted checksum
blocks included), and the current checksum block's own u16 zero path
length and kind-tag byte. -/
theorem c4_checksum_accumulation (blocks : List Block) (out : List Nat)
    (hwf : ∀ b ∈ blocks, BlockWf b) (hw : archiveWriter blocks = some out) :
    ∀ pr ∈ collectChecksums (out.take 8) (out.drop 8), pr.2 = crc64 pr.1 := by
  rw [archiveWriter] at hw
  cases hal : archiveWriterLoop blocks 0 (crc64update 0 fastArchiverHeader) with
  | none => rw [hal] at hw; cases hw
  | some body =>
      rw [hal] at hw
      simp only [Option.map_some', Option.some.injEq] at hw
      subst hw
      have htake : (fastArchiverHeader ++ body).take 8 = fastArchiverHeader := by
        rw [show (8 : Nat) = fastArchiverHeader.length from rfl, List.take_left]
      have hdrop : (fastArchiverHeader ++ body).drop 8 = body := by
        rw [show (8 : Nat) = fastArchiverHeader.length from rfl, List.drop_left]
      rw [htake, hdrop]
      exact collect_writerLoop blocks 0 fastArchiverHeader body hwf header_bytes_lt hal

/-- C4 (counterexample): in the archive of 1000 `EndOfFile "a"` blocks the
writer emits two checksum blocks; the second stores the CRC64 of the
full prefix including the first checksum's u64 value bytes, and that
value differs from the CRC64 the claim prescribes — the accumulation
that drops the previous checksum's u64 value — whether or not the
current block's own framing bytes are counted. -/
theorem c4_checksum_accumulation_counterexample :
    archiveWriter c4blocks = some c4out
    ∧ c4out = fastArchiverHeader ++
        (framesA 1000 ++ checksumBlockBytes c4v1 ++ checksumBlockBytes c4v2)
    ∧ c4v2 = crc64 (fastArchiverHeader ++ framesA 1000 ++ checksumBlockBytes c4v1 ++
        u16be 0 ++ [BlockType.checksum.tag])
    ∧ c4v2 ≠ crc64 (fastArchiverHeader ++ framesA 1000 ++ u16be 0 ++ [BlockType.checksum.tag])
    ∧ c4v2 ≠ crc64 (fastArchiverHeader ++ framesA 1000 ++ u16be 0 ++ [BlockType.checksum.tag]
        ++ u16be 0 ++ [BlockType.checksum.tag]) := by
  refine ⟨c4writer, rfl, ?_, ?_, ?_⟩
  · simp only [c4v2, c4crcSt, crc64, ← crc64update_append, List.append_assoc]
  · rw [c4v2_value, c4claimA_value]
    decide
  · rw [c4v2_value, c4claimB_value]
    decide

/-! ## The extraction of an intact archive never reports a CRC mismatch -/

theorem applyFrame_ne_crcMismatch (u : Unarchiver) (st : ExtractState) (f : Frame) :
    applyFrame u st f ≠ .error .crcMismatch := by
  cases f <;> simp only [applyFrame] <;> (repeat' split) <;> simp_all

theorem applyBlocks_ne_crcMismatch (u : Unarchiver) (blocks : List Block) :
    ∀ st, applyBlocks u blocks st ≠ .error .crcMismatch := by
  induction blocks with
  | nil =>
      intro st
      simp only [applyBlocks]
      split <;> simp
  | cons b rest ih =>
      intro st
      simp only [applyBlocks]
      split
      · simp
      · cases happ : applyFrame u st b.toFrameRead with
        | error e =>
            simp only [happ]
            intro hcontra
            cases hcontra
            exact applyFrame_ne_crcMismatch u st b.toFrameRead happ
        | ok st1 =>
            simp only [happ]
            exact ih st1

/-- C3: extracting an archive byte stream exactly as the writer produced it
(any queue of well-formed blocks) never fails with the CRC-mismatch
error: the reader's running CRC64 over the bytes consumed before each
checksum value field always equals the stored value. -/
theorem c3_intact_archive_no_crcMismatch (u : Unarchiver) (blocks : List Block)
    (out : List Nat) (hwf : ∀ b ∈ blocks, BlockWf b)
    (hw : archiveWriter blocks = some out) :
    runUnarchiver u out ≠ .error .crcMismatch := by
  rw [archiveWriter] at hw
  cases hal : archiveWriterLoop blocks 0 (crc64update 0 fastArchiverHeader) with
  | none => rw [hal] at hw; cases hw
  | some body =>
      rw [hal] at hw
      simp only [Option.map_some', Option.some.injEq] at hw
      subst hw
      rw [runUnarchiver]
      have hlen : ¬ ((fastArchiverHeader ++ body).length < 8) := by
        simp [fastArchiverHeader]
      rw [if_neg hlen]
      have htake : (fastArchiverHeader ++ body).take 8 = fastArchiverHeader := by
        rw [show (8 : Nat) = fastArchiverHeader.length from rfl, List.take_left]
      have hdrop : (fastArchiverHeader ++ body).drop 8 = body := by
        rw [show (8 : Nat) = fastArchiverHeader.length from rfl, List.drop_left]
      rw [if_neg (by rw [htake]; exact fun hcon => hcon rfl), htake, hdrop]
      rw [blockLoop_writerLoop u blocks 0 fastArchiverHeader body initialExtractState
        hwf header_bytes_lt hal]
      exact applyBlocks_ne_crcMismatch u blocks initialExtractState

/-! ## Round-trip support lemmas -/

theorem applyList_append (u : Unarchiver) (xs ys : List Block) :
    ∀ st, applyList u (xs ++ ys) st =
      match applyList u xs st with
      | .error e => .error e
      | .ok st1 => applyList u ys st1 := by
  induction xs with
  | nil => intro st; rfl
  | cons b rest ih =>
      intro st
      simp only [List.cons_append, applyList]
      split
      · rfl
      · cases applyFrame u st b.toFrameRead with
        | error e => rfl
        | ok st1 => exact ih st1

theorem applyBlocks_eq_applyList (u : Unarchiver) (blocks : List Block) :
    ∀ st, applyBlocks u blocks st =
      match applyList u blocks st with
      | .error e => .error e
      | .ok st1 =>
          if st1.openFiles.isEmpty && !st1.leaked then .ok st1
          else .error .stuckWaitGroup := by
  induction blocks with
  | nil => intro st; rfl
  | cons b rest ih =>
      intro st
      simp only [applyBlocks, applyList]
      split
      · rfl
      · cases applyFrame u st b.toFrameRead with
        | error e => rfl
        | ok st1 => exact ih st1

theorem chunks_join (bs : Nat) (hbs : 1 ≤ bs) (l : List Nat) :
    (chunks bs l).flatten = l := by
  rw [chunks]
  split
  · simp [*]
  · rw [if_neg (by omega)]
    rename_i h0
    have hlen : 0 < l.length := List.length_pos.mpr h0
    have hrec := chunks_join bs hbs (l.drop bs)
    rw [List.flatten_cons, hrec, List.take_append_drop]
termination_by l.length
decreasing_by
  simp only [List.length_drop]
  omega

/-- Chunks of 47-free, byte-valued lists: each chunk of a byte list is a
byte list. -/
theorem chunks_mem_bytes {bs : Nat} {l c : List Nat} (hc : c ∈ chunks bs l)
    (hb : ∀ x ∈ l, x < 256) : (∀ x ∈ c, x < 256) ∧ c.length ≤ bs := by
  rw [chunks] at hc
  split at hc
  · cases hc
  · split at hc
    · cases hc
    · rcases List.mem_cons.mp hc with h | h
      · subst h
        constructor
        · intro x hx
          exact hb x (List.take_subset _ _ hx)
        · simp [List.length_take]
      · exact chunks_mem_bytes h (fun x hx => hb x (List.drop_subset _ _ hx))
termination_by l.length
decreasing_by
  rename_i h0 hbs0
  have hlen : 0 < l.length := List.length_pos.mpr h0
  simp only [List.length_drop]
  omega

/-- Two slash-free segments followed by a slash coincide when the combined
strings coincide. -/
theorem seg_eq {na : List Nat} : ∀ {nb s t : List Nat}, 47 ∉ na → 47 ∉ nb →
    na ++ 47 :: s = nb ++ 47 :: t → na = nb ∧ s = t := by
  induction na with
  | nil =>
      intro nb s t _ hb h
      cases nb with
      | nil => simpa using h
      | cons b nb' =>
          simp only [List.nil_append, List.cons_append, List.cons.injEq] at h
          exact absurd (h.1 ▸ List.mem_cons_self b nb') hb
  | cons a na' ih =>
      intro nb s t ha hb h
      cases nb with
      | nil =>
          simp only [List.cons_append, List.nil_append, List.cons.injEq] at h
          exact absurd (h.1 ▸ List.mem_cons_self a na') ha
      | cons b nb' =>
          simp only [List.cons_append, List.cons.injEq] at h
          obtain ⟨hab, h2⟩ := h
          have ha' : 47 ∉ na' := fun hx => ha (List.mem_cons_of_mem a hx)
          have hb' : 47 ∉ nb' := fun hx => hb (List.mem_cons_of_mem b hx)
          obtain ⟨h3, h4⟩ := ih ha' hb' h2
          exact ⟨by rw [hab, h3], h4⟩

theorem under_self (p : List Nat) : Under p p := Or.inl rfl

theorem under_child_under (p name q : List Nat) (h : Under (p ++ 47 :: name) q) :
    Under p q := by
  rcases h with h | ⟨s, h⟩
  · exact Or.inr ⟨name, h⟩
  · exact Or.inr ⟨name ++ 47 :: s, by rw [h]; simp⟩

theorem not_under_longer {p q : List Nat} (h : q.length < p.length) : ¬ Under p q := by
  intro hu
  rcases hu with hu | ⟨s, hu⟩
  · subst hu; omega
  · have := congrArg List.length hu
    simp at this
    omega

theorem not_under_child_parent (p name : List Nat) : ¬ Under (p ++ 47 :: name) p := by
  apply not_under_longer
  simp

/-- Paths below distinct sibling names are disjoint. -/
theorem sibling_disjoint {p na nb q : List Nat} (hna : 47 ∉ na) (hnb : 47 ∉ nb)
    (hne : na ≠ nb) (h : Under (p ++ 47 :: na) q) : ¬ Under (p ++ 47 :: nb) q := by
  intro h'
  rcases h with h | ⟨s, h⟩ <;> rcases h' with h' | ⟨t, h'⟩
  · subst h
    have h2 : (47 : Nat) :: na = 47 :: nb := List.append_cancel_left h'
    exact hne (by injection h2)
  · subst h
    simp only [List.append_assoc, List.cons_append] at h'
    have h2 := List.append_cancel_left h'
    injection h2 with _ h3
    exact hna (h3 ▸ List.mem_append_right nb (List.mem_cons_self 47 t))
  · subst h'
    simp only [List.append_assoc, List.cons_append] at h
    have h2 := List.append_cancel_left h
    injection h2 with _ h3
    exact hnb (h3 ▸ List.mem_append_right na (List.mem_cons_self 47 s))
  · rw [h] at h'
    simp only [List.append_assoc, List.cons_append] at h'
    have h2 := List.append_cancel_left h'
    injection h2 with _ h3
    exact hne (seg_eq hna hnb h3).1

theorem findIdx47 (l r : List Nat) (hl : 47 ∉ l) :
    (l ++ 47 :: r).findIdx? (fun b => b == 47) = some l.length := by
  induction l with
  | nil => simp [List.findIdx?_cons]
  | cons a l' ih =>
      have ha : (a == 47) = false := by
        simp only [beq_eq_false_iff_ne, ne_eq]
        intro hcon
        exact hl (hcon ▸ List.mem_cons_self a l')
      have hl' : 47 ∉ l' := fun hx => hl (List.mem_cons_of_mem a hx)
      simp [List.findIdx?_cons, ha, ih hl']

theorem dirOf_child (p name : List Nat) (hn : 47 ∉ name) :
    dirOf (p ++ 47 :: name) = some p := by
  rw [dirOf]
  have hrev : (p ++ 47 :: name).reverse = name.reverse ++ 47 :: p.reverse := by
    simp [List.reverse_append]
  have hn' : 47 ∉ name.reverse := by simpa using hn
  rw [hrev, findIdx47 _ _ hn']
  simp only [List.length_reverse, List.length_append, List.length_cons,
    Option.some.injEq]
  have harith : p.length + (name.length + 1) - 1 - name.length = p.length := by omega
  rw [harith]
  rw [show p.length = (p : List Nat).length from rfl]
  rw [List.take_append_of_le_length (by omega)]
  simp

/-- C5: for every finite block-queue content, the writer's output is
exactly the 8-byte header `0x89 'F' 'A' '1' 0x0D 0x0A 0x1A 0x0A` followed
by the queue blocks' frames in consumption order with one checksum frame
inserted immediately after every 1000th queue block (checksum frames do
not advance the counter), followed by one final checksum frame after the
queue is drained — the shape `writerSpec` states, with each checksum
value the CRC64 of everything before its value field. -/
theorem c5_writer_output_shape (blocks : List Block) :
    archiveWriter blocks = writerSpec blocks := by
  rw [archiveWriter, writerSpec, writerSpecLoop_eq]
  rfl

/-- Predicate for one read outcome being a data chunk. -/
def ReadEvent.isChunk : ReadEvent → Bool
  | .chunk _ => true
  | _ => false

/-- The bytes of a chunk outcome. -/
def ReadEvent.chunkBytes : ReadEvent → Option (List Nat)
  | .chunk c => some c
  | _ => none

/-- The chunks successfully read before the first clean EOF or read error. -/
def chunksBefore (reads : List ReadEvent) : List (List Nat) :=
  (reads.takeWhile ReadEvent.isChunk).filterMap ReadEvent.chunkBytes

theorem fileReaderData_eq (path : List Nat) (reads : List ReadEvent) :
    fileReaderData path reads =
      (chunksBefore reads).map (fun c => ⟨path, c.length, c, .data, 0, 0, 0⟩) := by
  induction reads with
  | nil => rfl
  | cons ev rest ih =>
      cases ev with
      | chunk c =>
          simp only [fileReaderData, chunksBefore, List.takeWhile]
          simp only [ReadEvent.isChunk, List.filterMap, ReadEvent.chunkBytes, List.map]
          rw [ih]
          rfl
      | eofEvent => rfl
      | readError => rfl

/-- C8: `FileReader`'s behaviour on a dequeued path: when the open fails it
emits no block at all for the path, neither `StartOfFile` nor
`EndOfFile`; after a successful open it emits `StartOfFile`, one `Data`
block per chunk read before the first failure or EOF (so the data
already read is retained and the archived file is a prefix), and an
`EndOfFile` even when the read loop was stopped by an error, so the
extractor closes the path cleanly. -/
theorem c8_fileReader_errors (path : List Nat) :
    fileReaderBlocks path none = []
    ∧ ∀ (uid gid mode : Nat) (reads : List ReadEvent),
        fileReaderBlocks path (some ⟨uid, gid, mode, reads⟩) =
          ⟨path, 0, [], .startOfFile, uid, gid, mode⟩ ::
            ((chunksBefore reads).map (fun c => ⟨path, c.length, c, .data, 0, 0, 0⟩) ++
              [⟨path, 0, [], .endOfFile, 0, 0, 0⟩]) := by
  refine ⟨rfl, ?_⟩
  intro uid gid mode reads
  rw [fileReaderBlocks, fileReaderData_eq]

/-- C7: absolute paths are rejected on both sides.  On create, any
directory path drawn from the scan queue that begins with `/` is fatal
(`AbsoluteDirectoryPath`) and contributes no block, so a run seeded with
such a path produces no archive; on extract, any decoded block whose
path begins with `/` makes the read loop fail with the same error,
whatever the rest of the stream holds. -/
theorem c7_absolute_path_rejection :
    (∀ (bs : Nat) (path : List Nat) (uid gid mode : Nat) (entries : FsEntries),
        path.head? = some 47 →
        scanDir bs path uid gid mode entries = .error .absoluteDirectoryPath)
    ∧ (∀ (bs : Nat) (path : List Nat) (uid gid mode : Nat) (entries : FsEntries),
        path.head? = some 47 →
        createArchive bs path uid gid mode entries = .error .absoluteDirectoryPath)
    ∧ (∀ (u : Unarchiver) (hashed : List Nat) (st : ExtractState) (path rest : List Nat),
        path.length ≤ 65535 → path.head? = some 47 →
        blockLoop u hashed (u16be path.length ++ path ++ rest) st
          = .error .absoluteDirectoryPath) := by
  refine ⟨?_, ?_, ?_⟩
  · intro bs path uid gid mode entries habs
    rw [scanDir, if_pos habs]
  · intro bs path uid gid mode entries habs
    rw [createArchive, scanDir, if_pos habs]
  · intro u hashed st path rest hlen habs
    exact blockLoop_parse_error (parseStep_absolute path rest hlen habs)

/-- C9: a `Data` or `EndOfFile` block whose path has no live entry in the
active-path map makes the loop send on the nil channel the Go map lookup
returns: the send blocks forever and the runtime aborts the process with
a fatal deadlock error, so extraction never completes successfully
(modelled by the distinguished fatal outcome `nilChannelSend`). -/
theorem c9_orphan_block (u : Unarchiver) (hashed : List Nat) (st : ExtractState)
    (path payload rest : List Nat)
    (hlen : path.length ≤ 65535) (habs : path.head? ≠ some 47)
    (hpay : payload.length ≤ 65535)
    (hmiss : lookupOpen st path = none) :
    blockLoop u hashed (u16be path.length ++ path ++ [2] ++ rest) st
      = .error .nilChannelSend
    ∧ blockLoop u hashed
        (u16be path.length ++ path ++ [0] ++ u16be payload.length ++ payload ++ rest) st
      = .error .nilChannelSend := by
  constructor
  · rw [blockLoop]
    rw [parseStep_encode_endOfFile path rest hlen habs]
    simp [applyFrame, hmiss]
  · rw [blockLoop]
    rw [parseStep_encode_data path payload rest hlen habs hpay]
    simp [applyFrame, hmiss]

/-! ## The round trip: helper lemmas -/

/-- The writer loop succeeds on any queue of encodable blocks. -/
theorem archiveWriterLoop_total (blocks : List Block)
    (h : ∀ b ∈ blocks, b.writeBlock ≠ none) :
    ∀ (n crcSt : Nat), ∃ out, archiveWriterLoop blocks n crcSt = some out := by
  induction blocks with
  | nil => intro n crcSt; exact ⟨_, rfl⟩
  | cons b rest ih =>
      intro n crcSt
      obtain ⟨frame, hwb⟩ : ∃ fr, b.writeBlock = some fr := by
        cases hwb : b.writeBlock with
        | none => exact absurd hwb (h b (List.mem_cons_self b rest))
        | some fr => exact ⟨fr, rfl⟩
      have hrest : ∀ x ∈ rest, x.writeBlock ≠ none :=
        fun x hx => h x (List.mem_cons_of_mem b hx)
      simp only [archiveWriterLoop, hwb]
      by_cases hmod : (n + 1) % 1000 = 0
      · rw [if_pos hmod]
        obtain ⟨out, hout⟩ := ih hrest (n + 1)
          (emitChecksum (crc64update crcSt frame)).2
        exact ⟨_, by rw [hout]; rfl⟩
      · rw [if_neg hmod]
        obtain ⟨out, hout⟩ := ih hrest (n + 1) (crc64update crcSt frame)
        exact ⟨_, by rw [hout]; rfl⟩

theorem validName_spec {n : List Nat} (h : validName n = true) :
    n ≠ [] ∧ (∀ x ∈ n, x < 256) ∧ 47 ∉ n := by
  rw [validName] at h
  simp only [Bool.and_eq_true, Bool.not_eq_true'] at h
  obtain ⟨⟨⟨⟨h1, h2⟩, h3⟩, -⟩, -⟩ := h
  refine ⟨?_, ?_, ?_⟩
  · intro hcon
    subst hcon
    simp [List.isEmpty] at h1
  · intro x hx
    simpa using List.all_eq_true.mp h2 x hx
  · intro hcon
    have hel : n.contains 47 = true := by
      simpa [List.contains] using List.elem_eq_true_of_mem hcon
    rw [h3] at hel
    cases hel

theorem entriesWf_cons {p name : List Nat} {node : FsNode} {rest : FsEntries}
    (h : entriesWf p (.cons name node rest) = true) :
    validName name = true ∧ p.length + 1 + name.length ≤ 65535 ∧
      nodeWf (p ++ 47 :: name) node = true ∧ entriesWf p rest = true := by
  rw [entriesWf] at h
  simp only [Bool.and_eq_true, decide_eq_true_eq] at h
  exact ⟨h.1.1.1, h.1.1.2, h.1.2, h.2⟩

theorem entriesWf_names {p : List Nat} (es : FsEntries) (h : entriesWf p es = true) :
    ∀ n ∈ entryNames es, validName n = true := by
  match es with
  | .nil => intro n hn; cases hn
  | .cons name node rest =>
      intro n hn
      obtain ⟨hv, -, -, hrest⟩ := entriesWf_cons h
      rcases List.mem_cons.mp hn with rfl | hn
      · exact hv
      · exact entriesWf_names rest hrest n hn
termination_by sizeOf es

theorem distinctNamesB_cons {n : List Nat} {rest : List (List Nat)}
    (h : distinctNamesB (n :: rest) = true) :
    n ∉ rest ∧ distinctNamesB rest = true := by
  rw [distinctNamesB] at h
  simp only [Bool.and_eq_true, Bool.not_eq_true'] at h
  refine ⟨fun hcon => ?_, h.2⟩
  have hel : rest.contains n = true := by
    simpa [List.contains] using List.elem_eq_true_of_mem hcon
  rw [h.1] at hel
  cases hel

theorem chunksBefore_healthy (cs : List (List Nat)) :
    chunksBefore (cs.map ReadEvent.chunk ++ [ReadEvent.eofEvent]) = cs := by
  induction cs with
  | nil => rfl
  | cons c rest ih =>
      simp only [chunksBefore] at ih ⊢
      simp only [List.map_cons, List.cons_append, List.takeWhile_cons, ReadEvent.isChunk,
        if_true, List.filterMap_cons, ReadEvent.chunkBytes, ih]

/-- The block sequence of an intact file, explicitly. -/
theorem fileBlocks_eq (p : List Nat) (uid gid mode bs : Nat) (content : List Nat) :
    fileBlocks p uid gid mode bs content =
      ⟨p, 0, [], .startOfFile, uid, gid, mode⟩ ::
        ((chunks bs content).map (fun c => ⟨p, c.length, c, .data, 0, 0, 0⟩) ++
          [⟨p, 0, [], .endOfFile, 0, 0, 0⟩]) := by
  rw [fileBlocks, fileReaderBlocks, fileReaderData_eq, healthyReads, chunksBefore_healthy]

/-- A path without separators has no parent component. -/
theorem dirOf_noSlash {p : List Nat} (h : 47 ∉ p) : dirOf p = none := by
  rw [dirOf]
  have hidx : p.reverse.findIdx? (fun b => b == 47) = none := by
    rw [List.findIdx?_eq_none_iff]
    intro x hx
    simp only [beq_eq_false_iff_ne, ne_eq]
    intro hcon
    exact h (hcon ▸ List.mem_reverse.mp hx)
  rw [hidx]

theorem head?_append_of_ne_nil {p : List Nat} (q : List Nat) (h : p ≠ []) :
    (p ++ q).head? = p.head? := by
  cases p with
  | nil => exact absurd rfl h
  | cons a as => rfl

/-- Every block of well-formed file output is well-formed and encodable. -/
theorem fileBlocks_wf (p : List Nat) (uid gid mode bs : Nat) (content : List Nat)
    (hp : p.length ≤ 65535) (hpb : ∀ x ∈ p, x < 256) (hbs2 : bs ≤ 65535)
    (hcb : ∀ x ∈ content, x < 256) :
    ∀ b ∈ fileBlocks p uid gid mode bs content,
      BlockWf b ∧ b.writeBlock ≠ none := by
  rw [fileBlocks_eq]
  intro b hb
  rcases List.mem_cons.mp hb with rfl | hb
  · exact ⟨⟨hp, by simp, hpb, by simp⟩, by simp [Block.writeBlock]⟩
  · rcases List.mem_append.mp hb with hb | hb
    · obtain ⟨c, hc, rfl⟩ := List.mem_map.mp hb
      obtain ⟨hcbytes, hclen⟩ := chunks_mem_bytes hc hcb
      refine ⟨⟨hp, show c.length ≤ 65535 by omega, hpb, hcbytes⟩, ?_⟩
      simp [Block.writeBlock]
    · simp only [List.mem_singleton] at hb
      subst hb
      exact ⟨⟨hp, by simp, hpb, by simp⟩, by simp [Block.writeBlock]⟩

mutual
/-- Every path a subtree's expected extraction result mentions lies at or
below the subtree's mount path. -/
theorem flattenDir_paths (p : List Nat) (uid gid mode : Nat) (entries : FsEntries) :
    (∀ d ∈ (flattenDir p uid gid mode entries).1, Under p d.path) ∧
    (∀ g ∈ (flattenDir p uid gid mode entries).2, Under p g.path) := by
  rw [flattenDir]
  constructor
  · intro d hd
    rcases List.mem_cons.mp hd with rfl | hd
    · exact under_self p
    · obtain ⟨n, -, hu⟩ := (flattenEntries_paths p entries).1 d hd
      exact under_child_under p n d.path hu
  · intro g hg
    obtain ⟨n, -, hu⟩ := (flattenEntries_paths p entries).2 g hg
    exact under_child_under p n g.path hu
termination_by (sizeOf entries, 1)

/-- Every path in the expected extraction result of a directory's entries
lies below the child mount path of one of the entry names. -/
theorem flattenEntries_paths (p : List Nat) (entries : FsEntries) :
    (∀ d ∈ (flattenEntries p entries).1,
      ∃ n ∈ entryNames entries, Under (p ++ 47 :: n) d.path) ∧
    (∀ g ∈ (flattenEntries p entries).2,
      ∃ n ∈ entryNames entries, Under (p ++ 47 :: n) g.path) := by
  match entries with
  | .nil =>
      simp only [flattenEntries]
      exact ⟨fun d hd => absurd hd (List.not_mem_nil d),
             fun g hg => absurd hg (List.not_mem_nil g)⟩
  | .cons name node rest =>
      have htail := flattenEntries_paths p rest
      cases node with
      | file fuid fgid fmode content =>
          simp only [flattenEntries]
          constructor
          · intro d hd
            rcases List.mem_append.mp hd with hd | hd
            · cases hd
            · obtain ⟨n, hn, hu⟩ := htail.1 d hd
              exact ⟨n, List.mem_cons_of_mem name hn, hu⟩
          · intro g hg
            rcases List.mem_append.mp hg with hg | hg
            · simp only [List.mem_singleton] at hg
              subst hg
              exact ⟨name, List.mem_cons_self name _, under_self _⟩
            · obtain ⟨n, hn, hu⟩ := htail.2 g hg
              exact ⟨n, List.mem_cons_of_mem name hn, hu⟩
      | dir duid dgid dmode entries2 =>
          simp only [flattenEntries]
          constructor
          · intro d hd
            rcases List.mem_append.mp hd with hd | hd
            · have := (flattenDir_paths (p ++ 47 :: name) duid dgid dmode entries2).1 d hd
              exact ⟨name, List.mem_cons_self name _, this⟩
            · obtain ⟨n, hn, hu⟩ := htail.1 d hd
              exact ⟨n, List.mem_cons_of_mem name hn, hu⟩
          · intro g hg
            rcases List.mem_append.mp hg with hg | hg
            · have := (flattenDir_paths (p ++ 47 :: name) duid dgid dmode entries2).2 g hg
              exact ⟨name, List.mem_cons_self name _, this⟩
            · obtain ⟨n, hn, hu⟩ := htail.2 g hg
              exact ⟨n, List.mem_cons_of_mem name hn, hu⟩
termination_by (sizeOf entries, 0)
end

mutual
/-- Every block the scanner emits for a well-formed subtree is well-formed
and encodable. -/
theorem scanDir_blocks_wf (bs : Nat) (hbs2 : bs ≤ 65535) (p : List Nat)
    (uid gid mode : Nat) (entries : FsEntries)
    (hp : p.length ≤ 65535) (hpb : ∀ x ∈ p, x < 256)
    (hwf : entriesWf p entries = true) (blocks : List Block)
    (h : scanDir bs p uid gid mode entries = .ok blocks) :
    ∀ b ∈ blocks, BlockWf b ∧ b.writeBlock ≠ none := by
  rw [scanDir] at h
  split at h
  · cases h
  · match hse : scanEntries bs p entries with
    | .error e => rw [hse] at h; cases h
    | .ok blocks2 =>
        rw [hse] at h
        simp only [Except.ok.injEq] at h
        subst h
        intro b hb
        rcases List.mem_cons.mp hb with rfl | hb
        · exact ⟨⟨hp, by simp, hpb, by simp⟩, by simp [Block.writeBlock]⟩
        · exact scanEntries_blocks_wf bs hbs2 p entries hp hpb hwf blocks2 hse b hb
termination_by (sizeOf entries, 1)

/-- The entry-walk half of `scanDir_blocks_wf`. -/
theorem scanEntries_blocks_wf (bs : Nat) (hbs2 : bs ≤ 65535) (p : List Nat)
    (entries : FsEntries)
    (hp : p.length ≤ 65535) (hpb : ∀ x ∈ p, x < 256)
    (hwf : entriesWf p entries = true) (blocks : List Block)
    (h : scanEntries bs p entries = .ok blocks) :
    ∀ b ∈ blocks, BlockWf b ∧ b.writeBlock ≠ none := by
  match entries with
  | .nil =>
      simp only [scanEntries, Except.ok.injEq] at h
      subst h
      intro b hb
      cases hb
  | .cons name node rest =>
      obtain ⟨hv, hlen, hnode, hrest⟩ := entriesWf_cons hwf
      obtain ⟨hnn, hnb, hns⟩ := validName_spec hv
      have hcp : (p ++ 47 :: name).length ≤ 65535 := by
        simp only [List.length_append, List.length_cons]
        omega
      have hcpb : ∀ x ∈ p ++ 47 :: name, x < 256 := by
        intro x hx
        rcases List.mem_append.mp hx with hx | hx
        · exact hpb x hx
        · rcases List.mem_cons.mp hx with rfl | hx
          · omega
          · exact hnb x hx
      cases node with
      | file fuid fgid fmode content =>
          simp only [scanEntries] at h
          split at h
          · cases h
          · rename_i tail htail
            simp only [Except.ok.injEq] at h
            subst h
            intro b hb
            rcases List.mem_append.mp hb with hb | hb
            · rw [nodeWf] at hnode
              simp only [Bool.and_eq_true, decide_eq_true_eq,
                List.all_eq_true] at hnode
              exact fileBlocks_wf (p ++ 47 :: name) fuid fgid fmode bs content
                hcp hcpb hbs2 (fun x hx => by simpa using hnode.2 x hx) b hb
            · exact scanEntries_blocks_wf bs hbs2 p rest hp hpb hrest tail htail b hb
      | dir duid dgid dmode entries2 =>
          simp only [scanEntries] at h
          split at h
          · cases h
          · rename_i head hhead
            split at h
            · cases h
            · rename_i tail htail
              simp only [Except.ok.injEq] at h
              subst h
              intro b hb
              rcases List.mem_append.mp hb with hb | hb
              · rw [nodeWf] at hnode
                simp only [Bool.and_eq_true] at hnode
                exact scanDir_blocks_wf bs hbs2 (p ++ 47 :: name)
                  duid dgid dmode entries2 hcp hcpb hnode.2 head hhead b hb
              · exact scanEntries_blocks_wf bs hbs2 p rest hp hpb hrest tail htail b hb
termination_by (sizeOf entries, 0)
end

/-- Folding the data blocks of one open file accumulates their payloads, in
order, onto the open entry's content. -/
theorem applyList_dataBlocks (p : List Nat) (habs : ¬ p.head? = some 47)
    (cs : List (List Nat)) :
    ∀ (ds : List DirRecord) (fs : List FileRecord) (lk : Bool)
      (ow : Option (Nat × Nat)) (ms : Option Nat) (ct : List Nat),
      applyList u0 (cs.map (fun c => ⟨p, c.length, c, .data, 0, 0, 0⟩))
          ⟨ds, fs, [(p, ⟨true, ow, ms, ct⟩)], lk⟩ =
        .ok ⟨ds, fs, [(p, ⟨true, ow, ms, ct ++ cs.flatten⟩)], lk⟩ := by
  induction cs with
  | nil =>
      intro ds fs lk ow ms ct
      simp [applyList]
  | cons c rest ih =>
      intro ds fs lk ow ms ct
      simp only [List.map_cons, applyList, if_neg habs]
      have hfr : Block.toFrameRead ⟨p, c.length, c, .data, 0, 0, 0⟩
          = .data p c := by
        simp [Block.toFrameRead]
      rw [hfr]
      have happ : applyFrame u0 ⟨ds, fs, [(p, ⟨true, ow, ms, ct⟩)], lk⟩ (.data p c)
          = .ok ⟨ds, fs, [(p, ⟨true, ow, ms, ct ++ c⟩)], lk⟩ := by
        simp [applyFrame, lookupOpen, List.find?]
      rw [happ]
      exact (ih ds fs lk ow ms (ct ++ c)).trans (by simp [List.append_assoc])

/-- Applying the whole block sequence of an intact file to a state with no
open channel materializes exactly the expected file record. -/
theorem applyList_fileBlocks (p : List Nat) (uid gid mode bs : Nat) (content : List Nat)
    (ds : List DirRecord) (fs : List FileRecord) (lk : Bool)
    (habs : ¬ p.head? = some 47) (hbs : 1 ≤ bs)
    (hpar : parentOk ⟨ds, fs, [], lk⟩ p = true)
    (hdirs : ∀ d ∈ ds, ¬ d.path = p)
    (hfiles : ∀ g ∈ fs, ¬ g.path = p)
    (huid : uid < 4294967296) (hgid : gid < 4294967296) (hmode : mode < 4294967296) :
    applyList u0 (fileBlocks p uid gid mode bs content) ⟨ds, fs, [], lk⟩ =
      .ok ⟨ds, fs ++ [⟨p, some (uid, gid), some mode, content⟩], [], lk⟩ := by
  rw [fileBlocks_eq]
  simp only [applyList, if_neg habs]
  have hfr : Block.toFrameRead ⟨p, 0, [], .startOfFile, uid, gid, mode⟩
      = .startOfFile p uid gid mode := by
    simp [Block.toFrameRead, Nat.mod_eq_of_lt, huid, hgid, hmode]
  rw [hfr]
  have hanyd : (ds.any fun r => r.path == p) = false := by
    simp only [List.any_eq_false, beq_iff_eq]
    exact hdirs
  have happ1 : applyFrame u0 ⟨ds, fs, [], lk⟩ (.startOfFile p uid gid mode)
      = .ok ⟨ds, fs, [(p, ⟨true, some (uid, gid), some mode, []⟩)], lk⟩ := by
    simp [applyFrame, lookupOpen, hpar, hanyd, u0]
  rw [happ1]
  have hdata := applyList_dataBlocks p habs (chunks bs content) ds fs lk
    (some (uid, gid)) (some mode) []
  rw [List.nil_append, chunks_join bs hbs] at hdata
  have heof : applyList u0 [(⟨p, 0, [], .endOfFile, 0, 0, 0⟩ : Block)]
      ⟨ds, fs, [(p, ⟨true, some (uid, gid), some mode, content⟩)], lk⟩ =
      .ok ⟨ds, fs ++ [⟨p, some (uid, gid), some mode, content⟩], [], lk⟩ := by
    simp only [applyList, if_neg habs]
    have hfr2 : Block.toFrameRead ⟨p, 0, [], .endOfFile, 0, 0, 0⟩ = .endOfFile p := by
      simp [Block.toFrameRead]
    rw [hfr2]
    have hfilt : fs.filter (fun g => g.path ≠ p) = fs :=
      List.filter_eq_self.mpr (fun g hg => by simp [hfiles g hg])
    have happ2 : applyFrame u0
        ⟨ds, fs, [(p, ⟨true, some (uid, gid), some mode, content⟩)], lk⟩ (.endOfFile p)
        = .ok ⟨ds, fs ++ [⟨p, some (uid, gid), some mode, content⟩], [], lk⟩ := by
      simp [applyFrame, lookupOpen, List.find?, hfilt]
      exact hfiles
    rw [happ2]
  exact (applyList_append u0 _ _ _).trans (by rw [hdata]; exact heof)

mutual
/-- Replaying the scanner's block stream for a well-formed subtree onto any
state that holds the mount point's parent, nothing at or below the mount
path, and no open channel, materializes exactly the expected directories
and files of the subtree, in stream order. -/
theorem applyList_scanDir (bs : Nat) (p : List Nat) (uid gid mode : Nat)
    (entries : FsEntries) (ds : List DirRecord) (fs : List FileRecord) (lk : Bool)
    (hbs : 1 ≤ bs) (hne : p ≠ []) (habs : ¬ p.head? = some 47)
    (hpar : parentOk ⟨ds, fs, [], lk⟩ p = true)
    (hfresh : ∀ q ∈ pathsOf ⟨ds, fs, [], lk⟩, ¬ Under p q)
    (huid : uid < 4294967296) (hgid : gid < 4294967296) (hmode : mode < 4294967296)
    (hdist : distinctNamesB (entryNames entries) = true)
    (hwf : entriesWf p entries = true) :
    ∃ blocks, scanDir bs p uid gid mode entries = .ok blocks ∧
      applyList u0 blocks ⟨ds, fs, [], lk⟩ =
        .ok ⟨ds ++ (flattenDir p uid gid mode entries).1,
             fs ++ (flattenDir p uid gid mode entries).2, [], lk⟩ := by
  have hmemd : ∀ d ∈ ds, d.path ∈ pathsOf ⟨ds, fs, [], lk⟩ := fun d hd =>
    List.mem_append_left _ (List.mem_map_of_mem _ hd)
  have hmemf : ∀ g ∈ fs, g.path ∈ pathsOf ⟨ds, fs, [], lk⟩ := fun g hg =>
    List.mem_append_right _ (List.mem_map_of_mem _ hg)
  have hndirs : ∀ d ∈ ds, ¬ d.path = p := fun d hd hcon =>
    hfresh d.path (hmemd d hd) (by rw [hcon]; exact under_self p)
  have hnfiles : ∀ g ∈ fs, ¬ g.path = p := fun g hg hcon =>
    hfresh g.path (hmemf g hg) (by rw [hcon]; exact under_self p)
  have hanyd : (ds.any fun r => r.path == p) = false := by
    simp only [List.any_eq_false, beq_iff_eq]
    exact hndirs
  have hanyf : (fs.any fun f => f.path == p) = false := by
    simp only [List.any_eq_false, beq_iff_eq]
    exact hnfiles
  have happ : applyFrame u0 ⟨ds, fs, [], lk⟩ (.directory p uid gid mode)
      = .ok ⟨ds ++ [⟨p, some (uid, gid), mode⟩], fs, [], lk⟩ := by
    simp [applyFrame, u0, hanyd, hanyf, hpar]
  have hmem2 : ((ds ++ [⟨p, some (uid, gid), mode⟩] : List DirRecord).any
      fun r => r.path == p) = true := by
    simp [List.any_append]
  have hfresh2 : ∀ q ∈ pathsOf ⟨ds ++ [⟨p, some (uid, gid), mode⟩], fs, [], lk⟩,
      ∀ n ∈ entryNames entries, ¬ Under (p ++ 47 :: n) q := by
    intro q hq n _ hu
    simp only [pathsOf, List.map_append, List.map_cons, List.map_nil, List.mem_append,
      List.mem_singleton] at hq
    rcases hq with (hq | hq) | hq
    · exact hfresh q (List.mem_append_left _ hq) (under_child_under p n q hu)
    · exact not_under_child_parent p n (hq ▸ hu)
    · exact hfresh q (List.mem_append_right _ hq) (under_child_under p n q hu)
  obtain ⟨blocks2, hse, hap⟩ := applyList_scanEntries bs p entries
    (ds ++ [⟨p, some (uid, gid), mode⟩]) fs lk hbs hne habs hmem2 hfresh2 hdist hwf
  refine ⟨⟨p, 0, [], .directory, uid, gid, mode⟩ :: blocks2, ?_, ?_⟩
  · rw [scanDir, if_neg habs, hse]
  · simp only [applyList, if_neg habs]
    have hfr : Block.toFrameRead ⟨p, 0, [], .directory, uid, gid, mode⟩
        = .directory p uid gid mode := by
      simp [Block.toFrameRead, Nat.mod_eq_of_lt, huid, hgid, hmode]
    rw [hfr, happ]
    exact hap.trans (by simp [flattenDir, List.append_assoc])
termination_by (sizeOf entries, 1)

/-- The entry-walk half of `applyList_scanDir`: the state already holds the
mount directory itself, and each entry's stream lands its subtree next to
the previously materialized siblings. -/
theorem applyList_scanEntries (bs : Nat) (p : List Nat) (entries : FsEntries)
    (ds : List DirRecord) (fs : List FileRecord) (lk : Bool)
    (hbs : 1 ≤ bs) (hne : p ≠ []) (habs : ¬ p.head? = some 47)
    (hmem : (ds.any fun r => r.path == p) = true)
    (hfresh : ∀ q ∈ pathsOf ⟨ds, fs, [], lk⟩, ∀ n ∈ entryNames entries,
      ¬ Under (p ++ 47 :: n) q)
    (hdist : distinctNamesB (entryNames entries) = true)
    (hwf : entriesWf p entries = true) :
    ∃ blocks, scanEntries bs p entries = .ok blocks ∧
      applyList u0 blocks ⟨ds, fs, [], lk⟩ =
        .ok ⟨ds ++ (flattenEntries p entries).1,
             fs ++ (flattenEntries p entries).2, [], lk⟩ := by
  match entries with
  | .nil =>
      refine ⟨[], by simp [scanEntries], ?_⟩
      simp [applyList, flattenEntries]
  | .cons name node rest =>
      obtain ⟨hv, hlen, hnode, hrest⟩ := entriesWf_cons hwf
      obtain ⟨hnn, hnb, hns⟩ := validName_spec hv
      simp only [entryNames] at hdist hfresh
      obtain ⟨hnotin, hdrest⟩ := distinctNamesB_cons hdist
      have hmemd : ∀ d ∈ ds, d.path ∈ pathsOf ⟨ds, fs, [], lk⟩ := fun d hd =>
        List.mem_append_left _ (List.mem_map_of_mem _ hd)
      have hmemf : ∀ g ∈ fs, g.path ∈ pathsOf ⟨ds, fs, [], lk⟩ := fun g hg =>
        List.mem_append_right _ (List.mem_map_of_mem _ hg)
      have hcne : p ++ 47 :: name ≠ [] := by simp
      have hcabs : ¬ (p ++ 47 :: name).head? = some 47 := by
        rw [head?_append_of_ne_nil _ hne]
        exact habs
      have hparc : parentOk ⟨ds, fs, [], lk⟩ (p ++ 47 :: name) = true := by
        rw [parentOk, dirOf_child p name hns]
        exact hmem
      have hfreshc : ∀ q ∈ pathsOf ⟨ds, fs, [], lk⟩, ¬ Under (p ++ 47 :: name) q :=
        fun q hq => hfresh q hq name (List.mem_cons_self name _)
      cases node with
      | file fuid fgid fmode content =>
          rw [nodeWf] at hnode
          simp only [Bool.and_eq_true, decide_eq_true_eq] at hnode
          obtain ⟨⟨⟨hfu, hfg⟩, hfm⟩, -⟩ := hnode
          have hdirsc : ∀ d ∈ ds, ¬ d.path = p ++ 47 :: name := fun d hd hcon =>
            hfreshc d.path (hmemd d hd) (by rw [hcon]; exact under_self _)
          have hfilesc : ∀ g ∈ fs, ¬ g.path = p ++ 47 :: name := fun g hg hcon =>
            hfreshc g.path (hmemf g hg) (by rw [hcon]; exact under_self _)
          have hfile := applyList_fileBlocks (p ++ 47 :: name) fuid fgid fmode bs content
            ds fs lk hcabs hbs hparc hdirsc hfilesc hfu hfg hfm
          have hfresh2 : ∀ q ∈ pathsOf
              ⟨ds, fs ++ [⟨p ++ 47 :: name, some (fuid, fgid), some fmode, content⟩],
                [], lk⟩,
              ∀ n ∈ entryNames rest, ¬ Under (p ++ 47 :: n) q := by
            intro q hq n hn hu
            obtain ⟨-, -, hnsn⟩ := validName_spec (entriesWf_names rest hrest n hn)
            have hnen : name ≠ n := fun hcon => hnotin (hcon ▸ hn)
            simp only [pathsOf, List.map_append, List.map_cons, List.map_nil,
              List.mem_append, List.mem_singleton] at hq
            rcases hq with hq | (hq | rfl)
            · exact hfresh q (List.mem_append_left _ hq) n
                (List.mem_cons_of_mem name hn) hu
            · exact hfresh q (List.mem_append_right _ hq) n
                (List.mem_cons_of_mem name hn) hu
            · exact sibling_disjoint hns hnsn hnen (under_self _) hu
          obtain ⟨tail, htail, haptail⟩ := applyList_scanEntries bs p rest ds
            (fs ++ [⟨p ++ 47 :: name, some (fuid, fgid), some fmode, content⟩]) lk
            hbs hne habs hmem hfresh2 hdrest hrest
          refine ⟨fileBlocks (p ++ 47 :: name) fuid fgid fmode bs content ++ tail, ?_, ?_⟩
          · simp only [scanEntries]
            rw [htail]
          · exact (applyList_append u0 _ _ _).trans
              (by rw [hfile]
                  exact haptail.trans (by simp [flattenEntries, List.append_assoc]))
      | dir duid dgid dmode entries2 =>
          rw [nodeWf] at hnode
          simp only [Bool.and_eq_true, decide_eq_true_eq] at hnode
          obtain ⟨⟨⟨⟨hdu, hdg⟩, hdm⟩, hdist2⟩, hwf2⟩ := hnode
          obtain ⟨blocksD, hsd, hapD⟩ := applyList_scanDir bs (p ++ 47 :: name)
            duid dgid dmode entries2 ds fs lk hbs hcne hcabs hparc hfreshc
            hdu hdg hdm hdist2 hwf2
          have hmem2 : ((ds ++ (flattenDir (p ++ 47 :: name) duid dgid dmode entries2).1).any
              fun r => r.path == p) = true := by
            simp [List.any_append, hmem]
          have hfresh2 : ∀ q ∈ pathsOf
              ⟨ds ++ (flattenDir (p ++ 47 :: name) duid dgid dmode entries2).1,
                fs ++ (flattenDir (p ++ 47 :: name) duid dgid dmode entries2).2, [], lk⟩,
              ∀ n ∈ entryNames rest, ¬ Under (p ++ 47 :: n) q := by
            intro q hq n hn hu
            obtain ⟨-, -, hnsn⟩ := validName_spec (entriesWf_names rest hrest n hn)
            have hnen : name ≠ n := fun hcon => hnotin (hcon ▸ hn)
            simp only [pathsOf, List.map_append, List.mem_append] at hq
            rcases hq with (hq | hq) | (hq | hq)
            · exact hfresh q (List.mem_append_left _ hq) n
                (List.mem_cons_of_mem name hn) hu
            · obtain ⟨d, hd, rfl⟩ := List.mem_map.mp hq
              exact sibling_disjoint hns hnsn hnen
                ((flattenDir_paths (p ++ 47 :: name) duid dgid dmode entries2).1 d hd) hu
            · exact hfresh q (List.mem_append_right _ hq) n
                (List.mem_cons_of_mem name hn) hu
            · obtain ⟨g, hg, rfl⟩ := List.mem_map.mp hq
              exact sibling_disjoint hns hnsn hnen
                ((flattenDir_paths (p ++ 47 :: name) duid dgid dmode entries2).2 g hg) hu
          obtain ⟨tail, htail, haptail⟩ := applyList_scanEntries bs p rest
            (ds ++ (flattenDir (p ++ 47 :: name) duid dgid dmode entries2).1)
            (fs ++ (flattenDir (p ++ 47 :: name) duid dgid dmode entries2).2) lk
            hbs hne habs hmem2 hfresh2 hdrest hrest
          refine ⟨blocksD ++ tail, ?_, ?_⟩
          · simp only [scanEntries]
            rw [hsd, htail]
          · exact (applyList_append u0 _ _ _).trans
              (by rw [hapD]
                  exact haptail.trans (by simp [flattenEntries, List.append_assoc]))
termination_by (sizeOf entries, 0)
end

/-- C1: the round trip.  For every tree of regular files and directories
(well-formed names, 32-bit stat data, paths within the wire format's
16-bit length field), with any block size the source can run on
(`1 ≤ bs ≤ 65535`), the create run succeeds and extracting its archive
with ownership and permissions restored (`u0`: neither `IgnorePerms` nor
`IgnoreOwners`, not a dry run) reproduces the tree exactly: the expected
directory set with their uid/gid and mode, the expected files with their
full contents and uid/gid and mode, every channel closed and no goroutine
leaked. -/
theorem c1_round_trip (bs : Nat) (seed : List Nat) (uid gid mode : Nat)
    (entries : FsEntries)
    (hbs1 : 1 ≤ bs) (hbs2 : bs ≤ 65535)
    (hseed : seedWf seed = true)
    (huid : uid < 4294967296) (hgid : gid < 4294967296) (hmode : mode < 4294967296)
    (hdist : distinctNamesB (entryNames entries) = true)
    (hwf : entriesWf seed entries = true) :
    ∃ out, createArchive bs seed uid gid mode entries = .ok out ∧
      runUnarchiver u0 out =
        .ok ⟨(flattenDir seed uid gid mode entries).1,
             (flattenDir seed uid gid mode entries).2, [], false⟩ := by
  rw [seedWf] at hseed
  simp only [Bool.and_eq_true, Bool.not_eq_true', decide_eq_true_eq,
    List.all_eq_true] at hseed
  obtain ⟨⟨⟨h1, h2⟩, h3⟩, hslen⟩ := hseed
  have hne : seed ≠ [] := by
    intro hcon
    subst hcon
    simp [List.isEmpty] at h1
  have hsb : ∀ x ∈ seed, x < 256 := fun x hx => by simpa using h2 x hx
  have hnslash : 47 ∉ seed := by
    intro hcon
    have hel : seed.contains 47 = true := by
      simpa [List.contains] using List.elem_eq_true_of_mem hcon
    rw [h3] at hel
    cases hel
  have habs : ¬ seed.head? = some 47 := by
    cases seed with
    | nil => exact absurd rfl hne
    | cons a as =>
        simp only [List.head?, Option.some.injEq]
        intro hcon
        exact hnslash (hcon ▸ List.mem_cons_self a as)
  have hpar : parentOk ⟨[], [], [], false⟩ seed = true := by
    rw [parentOk, dirOf_noSlash hnslash]
  have hfresh : ∀ q ∈ pathsOf ⟨[], [], [], false⟩, ¬ Under seed q := by
    intro q hq
    simp [pathsOf] at hq
  obtain ⟨blocks, hscan, hap⟩ := applyList_scanDir bs seed uid gid mode entries
    [] [] false hbs1 hne habs hpar hfresh huid hgid hmode hdist hwf
  have hwfb := scanDir_blocks_wf bs hbs2 seed uid gid mode entries hslen hsb hwf
    blocks hscan
  obtain ⟨body, hloop⟩ := archiveWriterLoop_total blocks (fun b hb => (hwfb b hb).2) 0
    (crc64update 0 fastArchiverHeader)
  have hwriter : archiveWriter blocks = some (fastArchiverHeader ++ body) := by
    rw [archiveWriter, hloop]
    rfl
  refine ⟨fastArchiverHeader ++ body, ?_, ?_⟩
  · simp only [createArchive, hscan, hwriter]
  · rw [runUnarchiver]
    have hlen8 : ¬ ((fastArchiverHeader ++ body).length < 8) := by
      simp [fastArchiverHeader]
    rw [if_neg hlen8]
    have htake : (fastArchiverHeader ++ body).take 8 = fastArchiverHeader := by
      rw [show (8 : Nat) = fastArchiverHeader.length from rfl, List.take_left]
    have hdrop : (fastArchiverHeader ++ body).drop 8 = body := by
      rw [show (8 : Nat) = fastArchiverHeader.length from rfl, List.drop_left]
    rw [if_neg (by rw [htake]; exact fun hcon => hcon rfl), htake, hdrop]
    rw [blockLoop_writerLoop u0 blocks 0 fastArchiverHeader body initialExtractState
      (fun b hb => (hwfb b hb).1) header_bytes_lt hloop]
    rw [applyBlocks_eq_applyList]
    rw [show initialExtractState = (⟨[], [], [], false⟩ : ExtractState) from rfl]
    rw [hap]
    simp

/-! ## Concrete instances of the claims -/

/-- A two-entry tree: the file `a` (3 bytes, two chunks at block size 2)
and the empty directory `b`. -/
def egEntries : FsEntries :=
  .cons [97] (.file 1 2 420 [104, 105, 33])
    (.cons [98] (.dir 3 4 493 .nil) .nil)

theorem c1_round_trip_witness :
    ∃ out, createArchive 2 [115] 5 6 493 egEntries = .ok out ∧
      runUnarchiver u0 out =
        .ok ⟨(flattenDir [115] 5 6 493 egEntries).1,
             (flattenDir [115] 5 6 493 egEntries).2, [], false⟩ :=
  c1_round_trip 2 [115] 5 6 493 egEntries (by decide) (by decide) (by decide)
    (by decide) (by decide) (by decide) (by decide)
    (by simp [egEntries, entriesWf, nodeWf, validName, distinctNamesB, entryNames])

theorem c2_block_frame_codec_witness :
    parseStep ([0, 1, 97, 2] ++ []) =
      .ok (some ⟨(⟨[97], 0, [], .endOfFile, 0, 0, 0⟩ : Block).toFrame,
        [0, 1, 97, 2], [0, 1, 97, 2], []⟩)
    ∧ parseStep (checksumBlockBytes 7 ++ []) =
      .ok (some ⟨.checksum 7, checksumBlockBytes 7,
        u16be 0 ++ [BlockType.checksum.tag], []⟩) :=
  ⟨(c2_block_frame_codec ⟨[97], 0, [], .endOfFile, 0, 0, 0⟩ [0, 1, 97, 2] []
      (by decide) (by decide) (by decide) (by decide) (by decide) (by decide) rfl).1,
   (c2_block_frame_codec ⟨[97], 0, [], .endOfFile, 0, 0, 0⟩ [0, 1, 97, 2] []
      (by decide) (by decide) (by decide) (by decide) (by decide) (by decide) rfl).2
     7 (by decide)⟩

theorem c3_intact_archive_witness :
    runUnarchiver ⟨false, false, false⟩
      [137, 70, 65, 49, 13, 10, 26, 10, 0, 0, 4, 235, 150, 26, 4, 142, 178, 193, 118]
      ≠ .error .crcMismatch :=
  c3_intact_archive_no_crcMismatch ⟨false, false, false⟩ []
    [137, 70, 65, 49, 13, 10, 26, 10, 0, 0, 4, 235, 150, 26, 4, 142, 178, 193, 118]
    (fun b hb => absurd hb (List.not_mem_nil b)) (by decide)

theorem c4_checksum_accumulation_witness :
    (16975784452295934326 : Nat) =
      crc64 (fastArchiverHeader ++ (u16be 0 ++ [BlockType.checksum.tag])) := by
  have hp : parseStep (checksumBlockBytes 16975784452295934326) =
      .ok (some ⟨.checksum 16975784452295934326,
        checksumBlockBytes 16975784452295934326,
        u16be 0 ++ [BlockType.checksum.tag], []⟩) := by
    have h := parseStep_encode_checksum 16975784452295934326 []
    rw [Nat.mod_eq_of_lt (by decide)] at h
    rwa [List.append_nil] at h
  have hcol : collectChecksums fastArchiverHeader
      (checksumBlockBytes 16975784452295934326) =
      [(fastArchiverHeader ++ (u16be 0 ++ [BlockType.checksum.tag]),
        16975784452295934326)] := by
    rw [collect_parse_checksum hp, collect_parse_none (show parseStep [] = .ok none from rfl)]
  have hmem : (fastArchiverHeader ++ (u16be 0 ++ [BlockType.checksum.tag]),
      (16975784452295934326 : Nat)) ∈
      collectChecksums
        (([137, 70, 65, 49, 13, 10, 26, 10, 0, 0, 4, 235, 150, 26, 4, 142, 178, 193,
          118] : List Nat).take 8)
        (([137, 70, 65, 49, 13, 10, 26, 10, 0, 0, 4, 235, 150, 26, 4, 142, 178, 193,
          118] : List Nat).drop 8) := by
    rw [show (([137, 70, 65, 49, 13, 10, 26, 10, 0, 0, 4, 235, 150, 26, 4, 142, 178,
        193, 118] : List Nat).take 8) = fastArchiverHeader by decide]
    rw [show (([137, 70, 65, 49, 13, 10, 26, 10, 0, 0, 4, 235, 150, 26, 4, 142, 178,
        193, 118] : List Nat).drop 8) = checksumBlockBytes 16975784452295934326
      by decide]
    rw [hcol]
    exact List.mem_singleton.mpr rfl
  exact c4_checksum_accumulation []
    [137, 70, 65, 49, 13, 10, 26, 10, 0, 0, 4, 235, 150, 26, 4, 142, 178, 193, 118]
    (fun b hb => absurd hb (List.not_mem_nil b)) (by decide) _ hmem

theorem c6_header_rejection_witness :
    runUnarchiver ⟨false, false, false⟩ [0, 0, 0, 0, 0, 0, 0, 0]
      = .error .fileHeaderMismatch :=
  (c6_header_rejection ⟨false, false, false⟩ [0, 0, 0, 0, 0, 0, 0, 0]
    (by decide)).1 (by decide)

theorem c9_orphan_block_witness :
    blockLoop ⟨false, false, false⟩ [] (u16be 1 ++ [97] ++ [2] ++ []) ⟨[], [], [], false⟩
      = .error .nilChannelSend
    ∧ blockLoop ⟨false, false, false⟩ []
        (u16be 1 ++ [97] ++ [0] ++ u16be 0 ++ [] ++ []) ⟨[], [], [], false⟩
      = .error .nilChannelSend :=
  c9_orphan_block ⟨false, false, false⟩ [] ⟨[], [], [], false⟩ [97] [] []
    (by decide) (by decide) (by decide) rfl

end FastArchiver
